import Mathlib

/-!
Verification of the foodb streaming ingest pipeline (OpenFoodFacts preflight
and importer) against its natural-language specification.

The Python sources are shallowly embedded: pure helpers become Lean
functions over `String` / `List Char`, the stateful streaming loops become
folds over explicit state, and the fallible configuration gate becomes an
`Except`-valued function.  Python `str` values are modelled as Lean
`String`s; where a Python Unicode character class is involved
(`str.isdigit`, `str.strip`) the model is an explicitly documented
predicate that is exact on the character ranges exercised here.
-/

/-! ## Python character predicates

`pyIsDigit` models Python's `str.isdigit` on single characters: it is true
for characters whose Unicode `Numeric_Type` is `Digit` or `Decimal`.  That
class strictly contains the ASCII digits `[0-9]`; the model below covers
the ASCII digits plus the superscript/subscript digits and several
decimal-digit blocks, and is exact on every character appearing in this
development.  `pyIsSpace` models the whitespace class removed by Python's
`str.strip()`; it covers the ASCII whitespace characters plus NEL, NBSP
and the common Unicode space range (again exact on characters used here).
-/

def pyIsDigit (c : Char) : Bool :=
  decide ((0x30 ≤ c.toNat ∧ c.toNat ≤ 0x39) ∨
    c.toNat = 0xB2 ∨ c.toNat = 0xB3 ∨ c.toNat = 0xB9 ∨
    c.toNat = 0x2070 ∨ (0x2074 ≤ c.toNat ∧ c.toNat ≤ 0x2079) ∨
    (0x2080 ≤ c.toNat ∧ c.toNat ≤ 0x2089) ∨
    (0x660 ≤ c.toNat ∧ c.toNat ≤ 0x669) ∨
    (0x6F0 ≤ c.toNat ∧ c.toNat ≤ 0x6F9) ∨
    (0x966 ≤ c.toNat ∧ c.toNat ≤ 0x96F) ∨
    (0xFF10 ≤ c.toNat ∧ c.toNat ≤ 0xFF19))

def pyIsSpace (c : Char) : Bool :=
  decide ((0x9 ≤ c.toNat ∧ c.toNat ≤ 0xD) ∨ c.toNat = 0x20 ∨
    c.toNat = 0x85 ∨ c.toNat = 0xA0 ∨ c.toNat = 0x1680 ∨
    (0x2000 ≤ c.toNat ∧ c.toNat ≤ 0x200A) ∨
    c.toNat = 0x2028 ∨ c.toNat = 0x2029 ∨ c.toNat = 0x202F ∨
    c.toNat = 0x205F ∨ c.toNat = 0x3000)

/-- Python `str.strip()` on a character list: remove leading and trailing
whitespace characters. -/
def pyStripL (l : List Char) : List Char :=
  ((l.dropWhile pyIsSpace).reverse.dropWhile pyIsSpace).reverse

/-- Python `str.strip()` on a `String`. -/
def pyStrip (s : String) : String :=
  ⟨pyStripL s.data⟩

/-! ## Key Normalizer (`src/foodb/normalize/barcode.py`) -/

structure NormalizedBarcode where
  raw : String
  normalized : String
  digits : Nat
deriving DecidableEq, Repr

/-- Embedding of `normalize_barcode` (barcode.py lines 13-16): strip the
raw string, keep exactly the characters satisfying Python's `isdigit`
predicate, in order, and record their count. -/
def normalize_barcode (raw : String) : NormalizedBarcode :=
  let r := pyStripL raw.data
  let digits_only := r.filter pyIsDigit
  ⟨⟨r⟩, ⟨digits_only⟩, digits_only.length⟩

/-- Whitespace characters are never digit characters. -/
theorem pyIsSpace_not_pyIsDigit {c : Char} (h : pyIsSpace c = true) :
    pyIsDigit c = false := by
  simp only [pyIsSpace, decide_eq_true_eq] at h
  simp only [pyIsDigit, decide_eq_false_iff_not]
  omega

/-- Filtering by a predicate that is false on everything `dropWhile`
removes gives the same result as filtering the original list. -/
theorem filter_dropWhile_eq {p q : Char → Bool}
    (hpq : ∀ c, q c = true → p c = false) :
    ∀ l : List Char, (l.dropWhile q).filter p = l.filter p := by
  intro l
  induction l with
  | nil => rfl
  | cons c t ih =>
    by_cases hq : q c = true
    · rw [List.dropWhile_cons_of_pos hq, ih, List.filter_cons_of_neg]
      simp [hpq c hq]
    · rw [List.dropWhile_cons_of_neg hq]

/-- Stripping whitespace does not change the digit characters of a list. -/
theorem filter_pyIsDigit_pyStripL (l : List Char) :
    (pyStripL l).filter pyIsDigit = l.filter pyIsDigit := by
  unfold pyStripL
  rw [List.filter_reverse, filter_dropWhile_eq (fun c => pyIsSpace_not_pyIsDigit),
    List.filter_reverse, List.reverse_reverse,
    filter_dropWhile_eq (fun c => pyIsSpace_not_pyIsDigit)]

/-! ## Delimiter Sniffer (preflight.py lines 19-24 and ingest_tsv.py lines 28-33;
the two files contain the same function `_detect_delimiter`) -/

/-- Embedding of `_detect_delimiter`: count tab and comma characters of the
header line; comma wins only with a strict nonzero majority, tab otherwise. -/
def detect_delimiter (header_line : List Char) : String :=
  let tabs := header_line.count '\t'
  let commas := header_line.count ','
  if commas > tabs ∧ commas > 0 then "," else "\t"

/-- Embedding of the delimiter-override logic (ingest_tsv.py lines 316-319
and preflight.py lines 129-132): start from the caller-supplied delimiter;
when it equals the tab default and autodetection disagrees, the detected
delimiter silently replaces it. -/
def effective_delimiter (override : String) (header_line : List Char) : String :=
  let detected := detect_delimiter header_line
  if override = "\t" ∧ detected ≠ "\t" then detected else override

/-! ## Theorems: Key Normalizer and Delimiter Sniffer -/

/-- C6 (counterexample): the claim that `normalize_barcode(raw).normalized`
consists only of the decimal digits `[0-9]` fails on the code: Python's
`str.isdigit` also accepts e.g. the superscript digit `²` (U+00B2), so the
raw code `"²"` normalizes to `"²"`, which contains a character outside
`[0-9]`. -/
theorem normalize_barcode_ascii_counterexample :
    (normalize_barcode "²").normalized = "²" ∧
    ¬ (∀ c ∈ (normalize_barcode "²").normalized.data, '0' ≤ c ∧ c ≤ '9') := by
  decide

/-- C6 (amended): for every raw code string, `normalize_barcode(raw).normalized`
consists only of characters accepted by Python's Unicode digit predicate
(a superset of `[0-9]`), and is exactly the subsequence of those digit
characters of `raw` in their original order; a raw string with no such
digit characters yields the empty normalized key. -/
theorem normalize_barcode_digits_subsequence (raw : String) :
    (normalize_barcode raw).normalized.data = raw.data.filter pyIsDigit ∧
    (∀ c ∈ (normalize_barcode raw).normalized.data, pyIsDigit c = true) ∧
    (normalize_barcode raw).normalized.data.Sublist raw.data ∧
    ((∀ c ∈ raw.data, pyIsDigit c = false) → (normalize_barcode raw).normalized = "") := by
  have hd : (normalize_barcode raw).normalized.data = raw.data.filter pyIsDigit := by
    show (pyStripL raw.data).filter pyIsDigit = raw.data.filter pyIsDigit
    exact filter_pyIsDigit_pyStripL raw.data
  refine ⟨hd, ?_, ?_, ?_⟩
  · intro c hc
    rw [hd] at hc
    exact (List.mem_filter.mp hc).2
  · rw [hd]; exact List.filter_sublist raw.data
  · intro hnone
    have : raw.data.filter pyIsDigit = [] := by
      apply List.filter_eq_nil_iff.mpr
      intro c hc
      simp [hnone c hc]
    show (⟨(pyStripL raw.data).filter pyIsDigit⟩ : String) = ""
    rw [show (pyStripL raw.data).filter pyIsDigit = raw.data.filter pyIsDigit from
      filter_pyIsDigit_pyStripL raw.data, this]

/-- C6 (witness for the amended theorem): the no-digit clause at a concrete
input with no digit characters. -/
theorem normalize_barcode_digits_subsequence_witness :
    (normalize_barcode "a-b ").normalized = "" :=
  (normalize_barcode_digits_subsequence "a-b ").2.2.2 (by decide)

/-- C8: `_detect_delimiter` returns `","` exactly when the comma count
strictly exceeds the tab count and is positive, returns `"\t"` in every
other case, and is idempotent on its own one-character result. -/
theorem detect_delimiter_spec (h : List Char) :
    (detect_delimiter h = "," ↔ (h.count ',' > h.count '\t' ∧ h.count ',' > 0)) ∧
    (detect_delimiter h = "\t" ↔ ¬ (h.count ',' > h.count '\t' ∧ h.count ',' > 0)) ∧
    detect_delimiter (detect_delimiter h).data = detect_delimiter h := by
  by_cases hc : h.count ',' > h.count '\t' ∧ h.count ',' > 0
  · have e : detect_delimiter h = "," := by
      unfold detect_delimiter
      exact if_pos hc
    rw [e]
    refine ⟨⟨fun _ => hc, fun _ => rfl⟩, ⟨fun hh => absurd hh (by decide), fun hh => absurd hc hh⟩, ?_⟩
    decide
  · have e : detect_delimiter h = "\t" := by
      unfold detect_delimiter
      exact if_neg hc
    rw [e]
    refine ⟨⟨fun hh => absurd hh.symm (by decide), fun hh => absurd hh hc⟩,
      ⟨fun _ => hc, fun _ => rfl⟩, ?_⟩
    decide

/-- C9: the caller-supplied delimiter override is binding exactly when it
differs from the tab default; an override equal to `"\t"` is replaced by
the autodetected delimiter (so an explicit tab override is
indistinguishable from the default and can be silently replaced by a
detected comma). -/
theorem effective_delimiter_override (override : String) (h : List Char) :
    (override ≠ "\t" → effective_delimiter override h = override) ∧
    (override = "\t" → effective_delimiter override h = detect_delimiter h) := by
  constructor
  · intro hne
    unfold effective_delimiter
    rw [if_neg]
    intro hand
    exact hne hand.1
  · intro heq
    subst heq
    unfold effective_delimiter
    by_cases hd : detect_delimiter h = "\t"
    · rw [if_neg, hd]
      intro hand
      exact hand.2 hd
    · rw [if_pos ⟨rfl, hd⟩]

/-- C9 (witness): a non-tab override is honored; a tab override on a
comma-majority header is replaced by the detected comma. -/
theorem effective_delimiter_override_witness :
    effective_delimiter ";" ['a', ',', 'b'] = ";" ∧
    effective_delimiter "\t" ['a', ',', 'b', ',', 'c'] = detect_delimiter ['a', ',', 'b', ',', 'c'] :=
  ⟨(effective_delimiter_override ";" ['a', ',', 'b']).1 (by decide),
   (effective_delimiter_override "\t" ['a', ',', 'b', ',', 'c']).2 rfl⟩

/-! ## BOM handling and header parsing (preflight.py lines 126-139,
ingest_tsv.py lines 313-332; the logic is identical in both files) -/

/-- Embedding of the BOM strip: if the header line starts with U+FEFF,
remove all leading U+FEFF characters (Python
`header_line.lstrip(BOM)` guarded by `startswith`). -/
def strip_bom (l : List Char) : List Char :=
  match l with
  | [] => []
  | c :: rest =>
    if c = '\uFEFF' then (c :: rest).dropWhile (fun x => x = '\uFEFF') else c :: rest

/-- Model of the csv line-terminator handling: drop one trailing LF and a
preceding CR from the header line before splitting into fields. -/
def strip_line_end (l : List Char) : List Char :=
  let l1 := if l.getLast? = some '\n' then l.dropLast else l
  if l1.getLast? = some '\r' then l1.dropLast else l1

/-- First character of the delimiter string (csv takes a one-character
delimiter; `_detect_delimiter` only produces `","` or `"\t"`). -/
def delimiter_char (d : String) : Char :=
  match d.data with
  | c :: _ => c
  | [] => '\t'

/-- Model of `next(csv.reader([header_line], delimiter=delimiter))` for
header lines containing no quote characters: strip the line terminator and
split on the delimiter. -/
def parse_header_fields (delim : String) (line : List Char) : List String :=
  ((strip_line_end line).splitOn (delimiter_char delim)).map (fun f => ⟨f⟩)

/-- Embedding of the shared header setup of preflight and importer: strip
a UTF-8 BOM from the header line, autodetect the delimiter on the stripped
line, apply the override rule, parse the header fields, and test for the
required `code` column. -/
def header_setup (override : String) (header_line : List Char) :
    String × List String × Bool :=
  let stripped := strip_bom header_line
  let delim := effective_delimiter override stripped
  let headers := parse_header_fields delim stripped
  (delim, headers, decide ("code" ∈ headers))

theorem strip_bom_eq_dropWhile (l : List Char) :
    strip_bom l = l.dropWhile (fun x => x = '\uFEFF') := by
  match l with
  | [] => rfl
  | c :: rest =>
    by_cases hc : c = '\uFEFF'
    · simp [strip_bom, hc]
    · simp [strip_bom, hc, List.dropWhile_cons_of_neg]

/-- C10: a leading U+FEFF byte-order mark is stripped before delimiter
detection and header parsing, in the preflight pass and the importer
alike (the embedded `header_setup` is the logic both share), so a
BOM-prefixed first column name `code` is still recognized, with either
delimiter. -/
theorem header_setup_strips_bom :
    (∀ (override : String) (rest : List Char),
      header_setup override ('\uFEFF' :: rest) = header_setup override rest) ∧
    header_setup "\t" "\uFEFFcode\tproduct_name\n".data
      = ("\t", ["code", "product_name"], true) ∧
    (header_setup "\t" "\uFEFFcode,product_name\n".data).1 = "," ∧
    (header_setup "\t" "\uFEFFcode,product_name\n".data).2.2 = true := by
  refine ⟨?_, by decide, by decide, by decide⟩
  intro override rest
  have h : strip_bom ('\uFEFF' :: rest) = strip_bom rest := by
    rw [strip_bom_eq_dropWhile, strip_bom_eq_dropWhile,
      List.dropWhile_cons_of_pos (by decide)]
  simp only [header_setup, h]

/-! ## External Duplicate Detector (preflight.py lines 147-231)

The preflight pass writes each non-empty normalized key to a scratch file,
sorts that file with an external byte-order sort, and scans the sorted
file once, tracking the previous key and its run length (lines 179-208).
The scan is embedded as `dup_scan` below; the external sort is modelled by
`List.mergeSort` with a total order on keys (the counters proved about the
result depend only on the multiset of keys, not on which total order the
sort uses). -/

/-- One run of the sorted-scan loop (preflight.py lines 190-205), given
the current previous key `prev` and its run length `prevCount`: each
repeat of `prev` increments the occurrence counter, and a run length
reaching exactly 2 counts one new duplicate value. -/
def dup_scan_aux {α : Type} [DecidableEq α] (prev : α) (prevCount : Nat) :
    List α → Nat × Nat
  | [] => (0, 0)
  | c :: rest =>
    if c = prev then
      let r := dup_scan_aux prev (prevCount + 1) rest
      (if prevCount + 1 = 2 then r.1 + 1 else r.1, r.2 + 1)
    else
      dup_scan_aux c 1 rest

/-- The sorted-scan loop from its initial state (`prev = None`, which no
key equals, so the first key always starts a fresh run): returns
`(duplicate_values, duplicate_occurrences)`. -/
def dup_scan {α : Type} [DecidableEq α] : List α → Nat × Nat
  | [] => (0, 0)
  | c :: rest => dup_scan_aux c 1 rest

/-- Specification-level count of duplicate values: the number of distinct
keys occurring at least twice in `l`. -/
def dup_values_spec {α : Type} [DecidableEq α] (l : List α) : Nat :=
  l.dedup.countP (fun k => decide (2 ≤ l.count k))

/-- Distinct keys of `l` other than `c` that occur at least twice in `l`
(the duplicate values still discoverable once the scan has moved past the
run of `c`). -/
def dup_values_except {α : Type} [DecidableEq α] (c : α) (l : List α) : Nat :=
  l.dedup.countP (fun k => decide (k ≠ c) && decide (2 ≤ l.count k))

theorem countP_split {α : Type} [DecidableEq α] (p : α → Bool) (c : α) :
    ∀ l : List α,
      l.countP p
        = l.countP (fun e => decide (e = c) && p e)
          + l.countP (fun e => decide (e ≠ c) && p e) := by
  intro l
  induction l with
  | nil => rfl
  | cons x t ih =>
    by_cases hx : x = c
    · subst hx
      by_cases hp : p x = true
      · simp only [List.countP_cons, hp, ih]
        simp
        omega
      · simp only [List.countP_cons, Bool.eq_false_iff.mpr hp, ih]
        simp
    · by_cases hp : p x = true
      · simp only [List.countP_cons, hp, ih]
        simp [hx]
        omega
      · simp only [List.countP_cons, Bool.eq_false_iff.mpr hp, ih]
        simp

theorem dup_values_except_cons_self {α : Type} [DecidableEq α] (c : α) (t : List α) :
    dup_values_except c (c :: t) = dup_values_except c t := by
  unfold dup_values_except
  by_cases hmem : c ∈ t
  · rw [List.dedup_cons_of_mem hmem]
    apply List.countP_congr
    intro k hk
    by_cases hkc : k = c
    · simp [hkc]
    · simp [hkc, List.count_cons, hkc]
  · rw [List.dedup_cons_of_not_mem hmem, List.countP_cons]
    have hc : (decide (c ≠ c) && decide (2 ≤ (c :: t).count c)) = false := by simp
    rw [hc]
    simp only [Bool.false_eq_true, if_false, Nat.add_zero]
    apply List.countP_congr
    intro k hk
    by_cases hkc : k = c
    · simp [hkc]
    · simp [hkc, List.count_cons]

theorem dup_values_except_of_not_mem {α : Type} [DecidableEq α] {c : α} {l : List α}
    (h : c ∉ l) : dup_values_except c l = dup_values_spec l := by
  unfold dup_values_except dup_values_spec
  apply List.countP_congr
  intro k hk
  have hkl : k ∈ l := List.mem_dedup.mp hk
  have : k ≠ c := fun he => h (he ▸ hkl)
  simp [this]

theorem dup_values_spec_cons {α : Type} [DecidableEq α] (d : α) (t : List α) :
    dup_values_spec (d :: t)
      = (if 1 ≤ t.count d then 1 else 0) + dup_values_except d t := by
  unfold dup_values_spec dup_values_except
  by_cases hmem : d ∈ t
  · rw [List.dedup_cons_of_mem hmem,
      countP_split (fun k => decide (2 ≤ (d :: t).count k)) d t.dedup]
    have h1 : t.dedup.countP (fun e => decide (e = d) && decide (2 ≤ (d :: t).count e)) = 1 := by
      have he : t.dedup.countP (fun e => decide (e = d) && decide (2 ≤ (d :: t).count e))
          = t.dedup.countP (fun e => e == d) := by
        apply List.countP_congr
        intro k hk
        by_cases hkd : k = d
        · subst hkd
          have hc : 2 ≤ (k :: t).count k := by
            have := List.count_pos_iff.mpr hmem
            simp only [List.count_cons_self]
            omega
          simp [hc, hmem]
        · simp [hkd]
      rw [he]
      show t.dedup.count d = 1
      rw [List.count_dedup, if_pos hmem]
    have h2 : t.dedup.countP (fun e => decide (e ≠ d) && decide (2 ≤ (d :: t).count e))
        = t.dedup.countP (fun k => decide (k ≠ d) && decide (2 ≤ t.count k)) := by
      apply List.countP_congr
      intro k hk
      by_cases hkd : k = d
      · simp [hkd]
      · simp [hkd, List.count_cons]
    have hcp : 1 ≤ t.count d := List.count_pos_iff.mpr hmem
    rw [h1, h2, if_pos hcp]
  · rw [List.dedup_cons_of_not_mem hmem, List.countP_cons]
    have hd0 : t.count d = 0 := List.count_eq_zero_of_not_mem hmem
    have hc : (decide (2 ≤ (d :: t).count d)) = false := by
      simp only [List.count_cons_self, hd0]
      decide
    rw [hc]
    simp only [Bool.false_eq_true, if_false, Nat.add_zero, hd0]
    rw [if_neg (by omega), Nat.zero_add]
    apply List.countP_congr
    intro k hk
    have hkt : k ∈ t := List.mem_dedup.mp hk
    have hkd : k ≠ d := fun he => hmem (he ▸ hkt)
    simp [hkd, List.count_cons]

theorem dup_scan_aux_sorted {α : Type} [LinearOrder α] [DecidableEq α] :
    ∀ (l : List α) (c : α) (m : Nat), (c :: l).Pairwise (· ≤ ·) → 1 ≤ m →
      (dup_scan_aux c m l).1
          = (if m = 1 ∧ 1 ≤ l.count c then 1 else 0) + dup_values_except c l ∧
      (dup_scan_aux c m l).2 + (c :: l).dedup.length = l.length + 1 := by
  intro l
  induction l with
  | nil =>
    intro c m _ _
    refine ⟨?_, ?_⟩
    · simp [dup_scan_aux, dup_values_except]
    · simp [dup_scan_aux]
  | cons d t ih =>
    intro c m hs hm
    by_cases hdc : d = c
    · subst hdc
      have hs' : (d :: t).Pairwise (· ≤ ·) := hs.of_cons
      obtain ⟨ih1, ih2⟩ := ih d (m + 1) hs' (by omega)
      have hL : dup_scan_aux d m (d :: t)
          = (if m + 1 = 2 then (dup_scan_aux d (m + 1) t).1 + 1 else (dup_scan_aux d (m + 1) t).1,
             (dup_scan_aux d (m + 1) t).2 + 1) := by
        simp [dup_scan_aux]
      rw [hL]
      have he : (dup_scan_aux d (m + 1) t).1 = dup_values_except d t := by
        rw [ih1, if_neg (by omega), Nat.zero_add]
      constructor
      · rw [dup_values_except_cons_self]
        have hcnt : 1 ≤ (d :: t).count d := by
          simp only [List.count_cons_self]
          omega
        by_cases hm1 : m = 1
        · subst hm1
          rw [if_pos (by omega), he, if_pos ⟨rfl, hcnt⟩]
          simp [Nat.add_comm]
        · rw [if_neg (by omega), he, if_neg (fun hh => hm1 hh.1), Nat.zero_add]
      · have hded : (d :: d :: t).dedup = (d :: t).dedup :=
          List.dedup_cons_of_mem (List.mem_cons_self d t)
        rw [hded]
        simp only [List.length_cons]
        omega
    · have hpc := List.pairwise_cons.mp hs
      have hcall : ∀ e ∈ d :: t, c ≤ e := hpc.1
      have hs' : (d :: t).Pairwise (· ≤ ·) := hpc.2
      have hcnot : c ∉ d :: t := by
        intro hmem
        rcases List.mem_cons.mp hmem with hcd | hct
        · exact hdc hcd.symm
        · have h1 : d ≤ c := (List.pairwise_cons.mp hs').1 c hct
          have h2 : c ≤ d := hcall d (List.mem_cons_self d t)
          exact hdc (le_antisymm h1 h2)
      obtain ⟨ih1, ih2⟩ := ih d 1 hs' le_rfl
      have hL : dup_scan_aux c m (d :: t) = dup_scan_aux d 1 t := by
        simp [dup_scan_aux, hdc]
      rw [hL]
      constructor
      · have hc0 : (d :: t).count c = 0 := List.count_eq_zero_of_not_mem hcnot
        rw [hc0, if_neg (by omega), Nat.zero_add,
          dup_values_except_of_not_mem hcnot, dup_values_spec_cons, ih1]
        simp
      · have hded : (c :: d :: t).dedup = c :: (d :: t).dedup :=
          List.dedup_cons_of_not_mem hcnot
        rw [hded]
        simp only [List.length_cons]
        omega

theorem dup_scan_sorted {α : Type} [LinearOrder α] [DecidableEq α] (l : List α)
    (hs : l.Pairwise (· ≤ ·)) :
    (dup_scan l).1 = dup_values_spec l ∧ (dup_scan l).2 + l.dedup.length = l.length := by
  match l with
  | [] => exact ⟨rfl, rfl⟩
  | c :: t =>
    obtain ⟨h1, h2⟩ := dup_scan_aux_sorted t c 1 hs le_rfl
    constructor
    · show (dup_scan_aux c 1 t).1 = _
      rw [h1, dup_values_spec_cons]
      simp
    · exact h2

theorem sum_count_shift {α : Type} [DecidableEq α] (c : α) (t : List α) :
    ∀ xs : List α,
      (xs.map (fun k => (c :: t).count k)).sum
        = (xs.map (fun k => t.count k)).sum + xs.count c := by
  intro xs
  induction xs with
  | nil => simp
  | cons x xs' ih =>
    by_cases hxc : x = c
    · subst hxc
      rw [List.map_cons, List.map_cons, List.sum_cons, List.sum_cons, ih,
        List.count_cons_self, List.count_cons_self]
      omega
    · rw [List.map_cons, List.map_cons, List.sum_cons, List.sum_cons, ih,
        List.count_cons_of_ne hxc, List.count_cons_of_ne (Ne.symm hxc)]
      omega

theorem sum_map_count_dedup {α : Type} [DecidableEq α] :
    ∀ l : List α, (l.dedup.map (fun k => l.count k)).sum = l.length := by
  intro l
  induction l with
  | nil => rfl
  | cons c t ih =>
    by_cases hmem : c ∈ t
    · rw [List.dedup_cons_of_mem hmem, sum_count_shift c t t.dedup, ih,
        List.count_dedup, if_pos hmem]
      simp
    · rw [List.dedup_cons_of_not_mem hmem]
      simp only [List.map_cons, List.sum_cons]
      rw [sum_count_shift c t t.dedup, ih, List.count_dedup, if_neg hmem,
        List.count_cons_self, List.count_eq_zero_of_not_mem hmem]
      simp only [List.length_cons]
      omega

theorem sum_map_sub_one {α : Type} (f : α → Nat) :
    ∀ xs : List α, (∀ x ∈ xs, 1 ≤ f x) →
      (xs.map (fun x => f x - 1)).sum + xs.length = (xs.map f).sum := by
  intro xs
  induction xs with
  | nil => simp
  | cons x xs' ih =>
    intro hx
    have h1 : 1 ≤ f x := hx x (List.mem_cons_self x xs')
    have h2 := ih (fun y hy => hx y (List.mem_cons_of_mem x hy))
    simp only [List.map_cons, List.sum_cons, List.length_cons]
    omega

/-- The duplicate-occurrence total of a list (occurrences beyond the first
within each group of equal keys) equals its length minus its number of
distinct keys. -/
theorem dup_occ_sum {α : Type} [DecidableEq α] (l : List α) :
    (l.dedup.map (fun k => l.count k - 1)).sum + l.dedup.length = l.length := by
  rw [sum_map_sub_one (fun k => l.count k) l.dedup
    (fun k hk => List.count_pos_iff.mpr (List.mem_dedup.mp hk)), sum_map_count_dedup]

theorem dup_values_spec_perm {α : Type} [DecidableEq α] {l₁ l₂ : List α}
    (h : l₁.Perm l₂) : dup_values_spec l₁ = dup_values_spec l₂ := by
  unfold dup_values_spec
  have h1 : l₁.dedup.countP (fun k => decide (2 ≤ l₁.count k))
      = l₁.dedup.countP (fun k => decide (2 ≤ l₂.count k)) :=
    List.countP_congr (fun k _ => by simp [h.count_eq])
  rw [h1]
  exact List.Perm.countP_eq _ h.dedup

/-! ## The preflight counting pipeline -/

/-- Comparison used to model the external byte-order sort on normalized
keys (`sort` with `LC_ALL=C`, preflight.py lines 164-177): any total order
on keys yields the same manifest counters, which depend only on the
multiset of keys. -/
def string_le (a b : String) : Bool :=
  decide (a ≤ b)

/-- The non-empty normalized keys streamed to the scratch file, in row
order (preflight.py lines 147-162: strip the `code` cell, normalize it,
skip rows whose normalized key is empty). -/
def preflight_keys (code_cells : List String) : List String :=
  (code_cells.map (fun cell => (normalize_barcode (pyStrip cell)).normalized)).filter
    (fun k => k ≠ "")

/-- The manifest counter fields produced by the preflight pass. -/
structure PreflightTotals where
  code_total : Nat
  code_unique : Nat
  duplicate_values : Nat
  duplicate_occurrences : Nat
  duplicates_found : Bool
deriving DecidableEq, Repr

/-- Embedding of the preflight counting pipeline (preflight.py lines
147-231): write non-empty normalized keys to a scratch file, sort it,
scan the sorted keys once with `dup_scan`, and derive
`code_unique = code_total - duplicate_occurrences` (line 207) and
`duplicates_found = duplicate_values > 0` (line 208). -/
def preflight_totals (code_cells : List String) : PreflightTotals :=
  let keys := preflight_keys code_cells
  let sorted := keys.mergeSort string_le
  let r := dup_scan sorted
  { code_total := keys.length
    code_unique := keys.length - r.2
    duplicate_values := r.1
    duplicate_occurrences := r.2
    duplicates_found := decide (0 < r.1) }

theorem string_le_trans (a b c : String) :
    string_le a b → string_le b c → string_le a c := by
  simp only [string_le, decide_eq_true_eq]
  exact le_trans

theorem string_le_total (a b : String) : string_le a b || string_le b a := by
  simp only [string_le, Bool.or_eq_true, decide_eq_true_eq]
  exact le_total a b

theorem mergeSort_string_pairwise (keys : List String) :
    (keys.mergeSort string_le).Pairwise (· ≤ ·) := by
  have h := List.sorted_mergeSort string_le_trans string_le_total keys
  exact h.imp (fun hab => by simpa [string_le] using hab)

/-- C1: for every list of input `code` cells, the preflight manifest
counters satisfy: `duplicate_values` is the number of distinct non-empty
normalized keys occurring at least twice; `duplicate_occurrences` is the
total number of key occurrences beyond the first within each group;
`code_unique + duplicate_occurrences = code_total`; and
`duplicates_found` holds iff `duplicate_values > 0`. -/
theorem preflight_manifest_invariants (code_cells : List String) :
    (preflight_totals code_cells).duplicate_values
      = dup_values_spec (preflight_keys code_cells) ∧
    (preflight_totals code_cells).duplicate_occurrences
      = ((preflight_keys code_cells).dedup.map
          (fun k => (preflight_keys code_cells).count k - 1)).sum ∧
    (preflight_totals code_cells).code_unique
        + (preflight_totals code_cells).duplicate_occurrences
      = (preflight_totals code_cells).code_total ∧
    ((preflight_totals code_cells).duplicates_found = true ↔
      0 < (preflight_totals code_cells).duplicate_values) := by
  have hperm : ((preflight_keys code_cells).mergeSort string_le).Perm
      (preflight_keys code_cells) :=
    List.mergeSort_perm (preflight_keys code_cells) string_le
  have hsorted := mergeSort_string_pairwise (preflight_keys code_cells)
  obtain ⟨h1, h2⟩ := dup_scan_sorted _ hsorted
  have hlen : ((preflight_keys code_cells).mergeSort string_le).length
      = (preflight_keys code_cells).length := hperm.length_eq
  have hded : ((preflight_keys code_cells).mergeSort string_le).dedup.length
      = (preflight_keys code_cells).dedup.length := hperm.dedup.length_eq
  have hsum := dup_occ_sum (preflight_keys code_cells)
  have hv : (preflight_totals code_cells).duplicate_values
      = (dup_scan ((preflight_keys code_cells).mergeSort string_le)).1 := rfl
  have ho : (preflight_totals code_cells).duplicate_occurrences
      = (dup_scan ((preflight_keys code_cells).mergeSort string_le)).2 := rfl
  have hu : (preflight_totals code_cells).code_unique
      = (preflight_keys code_cells).length
        - (dup_scan ((preflight_keys code_cells).mergeSort string_le)).2 := rfl
  have ht : (preflight_totals code_cells).code_total
      = (preflight_keys code_cells).length := rfl
  have hf : (preflight_totals code_cells).duplicates_found
      = decide (0 < (dup_scan ((preflight_keys code_cells).mergeSort string_le)).1) := rfl
  refine ⟨?_, ?_, ?_, ?_⟩
  · rw [hv, h1]
    exact dup_values_spec_perm hperm
  · rw [ho]
    omega
  · rw [hu, ho, ht]
    omega
  · rw [hf, hv]
    simp

/-! ## Duplicate Resolver (ingest_tsv.py lines 470-481, 572-581, 599-611)

For rows whose normalized key is in the duplicate-key set, the importer
keeps, per key, only the entry `(score, product_line, nutrient_lines)`
with the strictly highest score seen so far, in a dict keyed by
`code_norm` (insertion-ordered, as Python dicts are); at end of stream
each retained entry is emitted once and counted. -/

/-- The score tuple type `(last_modified, nutrient_count, product_nonempty)`. -/
abbrev Score := Int × Nat × Nat

/-- A retained duplicate candidate: score, product line, nutrient lines. -/
abbrev Cand := Score × String × List String

/-- A transformed row as it reaches the duplicate branch of the main loop:
its normalized key, the (already validated) `last_modified_t` string, the
number of nutrient observations it emitted, the values of the six
`product_score_fields`, and its formatted output payload. -/
structure ResolverRow where
  code_norm : String
  last_modified_t : String
  nutrient_count : Nat
  score_fields : List String
  product_line : String
  nutrient_lines : List String
deriving DecidableEq, Repr

def asciiDigit (c : Char) : Bool :=
  decide (0x30 ≤ c.toNat ∧ c.toNat ≤ 0x39)

/-- Python `int()` on optional-minus ASCII-digit strings: the decimal
value of the digits, negated after a leading minus sign.  Python's
`int()` additionally accepts non-ASCII Unicode decimal digits (by their
decimal value) and raises on the other digit characters that
`_int_or_empty`'s `isdigit` check lets through (e.g. `"²"`); this total
model is exact only on ASCII inputs, and the resolver theorem below
restricts the scored rows to that domain with `ascii_int_string`. -/
def py_int (s : String) : Int :=
  let digitsVal : List Char → Int :=
    fun l => l.foldl (fun n c => n * 10 + (Int.ofNat c.toNat - 0x30)) 0
  match s.data with
  | '-' :: rest => - digitsVal rest
  | l => digitsVal l

/-- The `last_modified_t` strings on which `py_int` agrees with Python
`int()`: empty (scored as `-1` without calling `int()`), ASCII digits,
or a minus sign followed by ASCII digits. -/
def ascii_int_string (s : String) : Bool :=
  decide (s = "") ||
    (match s.data with
     | '-' :: t => decide (t ≠ []) && t.all asciiDigit
     | l => decide (l ≠ []) && l.all asciiDigit)

/-- The duplicate score of a row (ingest_tsv.py lines 573-577):
`last_modified_t` as an integer or `-1` if absent, the number of nutrient
observations emitted, and the number of non-empty values among the
`product_score_fields`. -/
def row_score (r : ResolverRow) : Score :=
  (if r.last_modified_t = "" then -1 else py_int r.last_modified_t,
   r.nutrient_count,
   (r.score_fields.filter (fun v => v ≠ "")).length)

/-- Python's `>` on the 3-tuples used as scores: strict lexicographic
comparison. -/
def score_gt (a b : Score) : Bool :=
  decide (b.1 < a.1) ||
    (decide (a.1 = b.1) &&
      (decide (b.2.1 < a.2.1) ||
        (decide (a.2.1 = b.2.1) && decide (b.2.2 < a.2.2))))

/-- The stored candidate built from a row (ingest_tsv.py line 580). -/
def row_cand (r : ResolverRow) : Cand :=
  (row_score r, r.product_line, r.nutrient_lines)

theorem score_gt_irrefl (s : Score) : score_gt s s = false := by
  obtain ⟨a, b, c⟩ := s
  simp [score_gt]

theorem score_gt_trans {a b c : Score} (h1 : score_gt a b = true)
    (h2 : score_gt b c = true) : score_gt a c = true := by
  obtain ⟨a1, a2, a3⟩ := a
  obtain ⟨b1, b2, b3⟩ := b
  obtain ⟨c1, c2, c3⟩ := c
  simp only [score_gt, Bool.or_eq_true, Bool.and_eq_true, decide_eq_true_eq] at h1 h2 ⊢
  omega

theorem score_ge_trans {a b c : Score} (h1 : score_gt a b = false)
    (h2 : score_gt b c = false) : score_gt a c = false := by
  obtain ⟨a1, a2, a3⟩ := a
  obtain ⟨b1, b2, b3⟩ := b
  obtain ⟨c1, c2, c3⟩ := c
  simp only [score_gt, Bool.or_eq_false_iff, Bool.and_eq_false_iff,
    decide_eq_false_iff_not, not_lt] at h1 h2 ⊢
  omega

theorem score_eq_of_not_gt {a b : Score} (h1 : score_gt a b = false)
    (h2 : score_gt b a = false) : a = b := by
  obtain ⟨a1, a2, a3⟩ := a
  obtain ⟨b1, b2, b3⟩ := b
  simp only [score_gt, Bool.or_eq_false_iff, Bool.and_eq_false_iff,
    decide_eq_false_iff_not, not_lt] at h1 h2
  simp only [Prod.mk.injEq]
  refine ⟨?_, ?_, ?_⟩ <;> omega


theorem find?_cons_pos {α : Type} (p : α → Bool) (a : α) (l : List α) (h : p a = true) :
    (a :: l).find? p = some a := by
  simp [List.find?_cons, h]

theorem find?_cons_neg {α : Type} (p : α → Bool) (a : α) (l : List α) (h : p a = false) :
    (a :: l).find? p = l.find? p := by
  simp [List.find?_cons, h]

/-- Specification of the retained row for one key, following the spec's
words: the first row (in stream order) whose score no other row of the
group strictly exceeds — i.e. the lexicographically maximal score, ties
keeping the first seen. -/
def first_best (rows : List ResolverRow) : Option ResolverRow :=
  rows.find? (fun r => rows.all (fun y => !score_gt (row_score y) (row_score r)))

/-- One update of the per-key retained row (row-level view of
ingest_tsv.py lines 578-580): keep the incoming row only if it strictly
beats the current one. -/
def best_row_step (acc : Option ResolverRow) (r : ResolverRow) : Option ResolverRow :=
  match acc with
  | none => some r
  | some b => if score_gt (row_score r) (row_score b) then some r else some b

theorem first_best_cons_lt (a x : ResolverRow) (xs : List ResolverRow)
    (h : score_gt (row_score x) (row_score a) = true) :
    first_best (a :: x :: xs) = first_best (x :: xs) := by
  unfold first_best
  have hp : (fun r => (a :: x :: xs).all (fun y => !score_gt (row_score y) (row_score r)))
      = (fun r => (x :: xs).all (fun y => !score_gt (row_score y) (row_score r))) := by
    funext r
    simp only [List.all_cons, Bool.and_eq_true, Bool.not_eq_eq_eq_not, Bool.not_true]
    by_cases hxr : score_gt (row_score x) (row_score r) = false
    · have har : score_gt (row_score a) (row_score r) = false := by
        by_cases h2 : score_gt (row_score a) (row_score r) = true
        · exact absurd (score_gt_trans h h2) (by simp [hxr])
        · simpa using h2
      simp [har]
    · simp only [Bool.not_eq_false] at hxr
      simp [hxr]
  rw [hp]
  have hpa : ((x :: xs).all (fun y => !score_gt (row_score y) (row_score a))) = false := by
    simp only [List.all_cons, Bool.and_eq_false_iff]
    left
    simp [h]
  rw [find?_cons_neg
    (fun r => (x :: xs).all (fun y => !score_gt (row_score y) (row_score r)))
    a (x :: xs) hpa]

theorem first_best_cons_ge (a x : ResolverRow) (xs : List ResolverRow)
    (h : score_gt (row_score x) (row_score a) = false) :
    first_best (a :: x :: xs) = first_best (a :: xs) := by
  unfold first_best
  have hp : (fun r => (a :: x :: xs).all (fun y => !score_gt (row_score y) (row_score r)))
      = (fun r => (a :: xs).all (fun y => !score_gt (row_score y) (row_score r))) := by
    funext r
    simp only [List.all_cons, Bool.and_eq_true, Bool.not_eq_eq_eq_not, Bool.not_true]
    by_cases har : score_gt (row_score a) (row_score r) = false
    · have hxr : score_gt (row_score x) (row_score r) = false := score_ge_trans h har
      simp [har, hxr]
    · simp only [Bool.not_eq_false] at har
      simp [har]
  rw [hp]
  by_cases hpa : ((a :: xs).all (fun y => !score_gt (row_score y) (row_score a))) = true
  · rw [find?_cons_pos
      (fun r => (a :: xs).all (fun y => !score_gt (row_score y) (row_score r)))
      a (x :: xs) hpa,
      find?_cons_pos
      (fun r => (a :: xs).all (fun y => !score_gt (row_score y) (row_score r)))
      a xs hpa]
  · have hpa' := Bool.eq_false_iff.mpr (fun hh => hpa hh)
    have hpx : ((a :: xs).all (fun y => !score_gt (row_score y) (row_score x))) = false := by
      by_cases hx : ((a :: xs).all (fun y => !score_gt (row_score y) (row_score x))) = true
      · exfalso
        have hax : score_gt (row_score a) (row_score x) = false := by
          have := (List.all_eq_true.mp hx) a (List.mem_cons_self a xs)
          simpa using this
        have heq : row_score a = row_score x := score_eq_of_not_gt hax h
        apply hpa
        apply List.all_eq_true.mpr
        intro y hy
        have := (List.all_eq_true.mp hx) y hy
        rw [heq]
        exact this
      · simpa using hx
    rw [find?_cons_neg
      (fun r => (a :: xs).all (fun y => !score_gt (row_score y) (row_score r)))
      a (x :: xs) hpa',
      find?_cons_neg
      (fun r => (a :: xs).all (fun y => !score_gt (row_score y) (row_score r)))
      x xs hpx,
      find?_cons_neg
      (fun r => (a :: xs).all (fun y => !score_gt (row_score y) (row_score r)))
      a xs hpa']

theorem best_row_fold_some :
    ∀ (l : List ResolverRow) (a : ResolverRow),
      l.foldl best_row_step (some a) = first_best (a :: l) := by
  intro l
  induction l with
  | nil =>
    intro a
    have ha : ([a].all (fun y => !score_gt (row_score y) (row_score a))) = true := by
      simp [score_gt_irrefl]
    simp only [List.foldl_nil, first_best]
    rw [find?_cons_pos
      (fun r => [a].all (fun y => !score_gt (row_score y) (row_score r))) a [] ha]
  | cons x xs ih =>
    intro a
    rw [List.foldl_cons]
    by_cases h : score_gt (row_score x) (row_score a) = true
    · have hstep : best_row_step (some a) x = some x := by
        simp [best_row_step, h]
      rw [hstep, ih x, first_best_cons_lt a x xs h]
    · have h' := Bool.eq_false_iff.mpr (fun hh => h hh)
      have hstep : best_row_step (some a) x = some a := by
        simp [best_row_step, h']
      rw [hstep, ih a, first_best_cons_ge a x xs h']

theorem best_row_fold_none (l : List ResolverRow) :
    l.foldl best_row_step none = first_best l := by
  match l with
  | [] => rfl
  | x :: xs =>
    rw [List.foldl_cons]
    show xs.foldl best_row_step (some x) = _
    exact best_row_fold_some xs x

/-- The `duplicate_best` dict, modelled as an insertion-ordered
association list (Python dicts preserve insertion order). -/
abbrev BestMap := List (String × Cand)

/-- `duplicate_best.get(code_norm)`. -/
def map_find (m : BestMap) (k : String) : Option Cand :=
  (m.find? (fun p => p.1 = k)).map (fun p => p.2)

/-- `duplicate_best[code_norm] = v`: replace the entry in place if the
key is present, append it otherwise. -/
def map_set (m : BestMap) (k : String) (v : Cand) : BestMap :=
  if m.any (fun p => p.1 = k) then
    m.map (fun p => if p.1 = k then (k, v) else p)
  else
    m ++ [(k, v)]

/-- The row's key is handled by the duplicate branch (ingest_tsv.py line
572): the duplicate-code set is non-empty (truthy) and contains the key. -/
def in_dup_set (dup_codes : List String) (r : ResolverRow) : Bool :=
  decide (dup_codes ≠ []) && decide (r.code_norm ∈ dup_codes)

/-- Cand-level update of one key of `duplicate_best` (ingest_tsv.py lines
573-580). -/
def best_cand_step (acc : Option Cand) (r : ResolverRow) : Option Cand :=
  match acc with
  | none => some (row_cand r)
  | some e => if score_gt (row_score r) e.1 then some (row_cand r) else some e

/-- One iteration of the main loop restricted to duplicate handling
(ingest_tsv.py lines 572-588): a row whose key is in the duplicate set
updates `duplicate_best` and is not emitted; any other row is emitted
immediately. -/
def resolver_step (dup_codes : List String) (st : BestMap × List ResolverRow)
    (r : ResolverRow) : BestMap × List ResolverRow :=
  if in_dup_set dup_codes r then
    match map_find st.1 r.code_norm with
    | none => (map_set st.1 r.code_norm (row_cand r), st.2)
    | some e =>
      if score_gt (row_score r) e.1 then (map_set st.1 r.code_norm (row_cand r), st.2)
      else st
  else
    (st.1, st.2 ++ [r])

/-- The duplicate-resolution state after the whole stream. -/
def resolver_run (dup_codes : List String) (rows : List ResolverRow) :
    BestMap × List ResolverRow :=
  rows.foldl (resolver_step dup_codes) ([], [])

/-- End-of-stream emission of the retained candidates (ingest_tsv.py
lines 599-611): walk `duplicate_best` in insertion order, emit each
retained entry once, and count it as one resolved duplicate. -/
def resolver_emit (m : BestMap) : List Cand × Nat :=
  m.foldl (fun acc p => (acc.1 ++ [p.2], acc.2 + 1)) ([], 0)

theorem find_replace_self (k : String) (v : Cand) :
    ∀ m : BestMap, m.any (fun p => p.1 = k) = true →
      (m.map (fun p => if p.1 = k then (k, v) else p)).find? (fun p => p.1 = k)
        = some (k, v) := by
  intro m
  induction m with
  | nil => intro h; simp at h
  | cons p t ih =>
    intro h
    by_cases hp : p.1 = k
    · simp only [List.map_cons, if_pos hp]
      exact find?_cons_pos (fun p => p.1 = k) (k, v)
        (t.map (fun p => if p.1 = k then (k, v) else p)) (by simp)
    · simp only [List.map_cons, if_neg hp]
      rw [find?_cons_neg (fun p => p.1 = k) p
        (t.map (fun p => if p.1 = k then (k, v) else p)) (by simp [hp])]
      apply ih
      simp only [List.any_cons, Bool.or_eq_true] at h
      rcases h with h | h
      · exact absurd (by simpa using h) hp
      · exact h

theorem find_append_self (k : String) (v : Cand) :
    ∀ m : BestMap, m.any (fun p => p.1 = k) = false →
      (m ++ [(k, v)]).find? (fun p => p.1 = k) = some (k, v) := by
  intro m
  induction m with
  | nil =>
    intro _
    simp only [List.nil_append]
    exact find?_cons_pos (fun p => p.1 = k) (k, v) [] (by simp)
  | cons p t ih =>
    intro h
    simp only [List.any_cons, Bool.or_eq_false_iff] at h
    simp only [List.cons_append]
    rw [find?_cons_neg (fun p => p.1 = k) p (t ++ [(k, v)]) h.1]
    exact ih h.2

theorem map_find_set_self (m : BestMap) (k : String) (v : Cand) :
    map_find (map_set m k v) k = some v := by
  unfold map_find map_set
  by_cases h : m.any (fun p => p.1 = k) = true
  · rw [if_pos h, find_replace_self k v m h]
    rfl
  · rw [if_neg h, find_append_self k v m (Bool.eq_false_iff.mpr (fun hh => h hh))]
    rfl

theorem find_replace_ne {j k : String} (hjk : j ≠ k) (v : Cand) :
    ∀ m : BestMap,
      (m.map (fun p => if p.1 = j then (j, v) else p)).find? (fun p => p.1 = k)
        = m.find? (fun p => p.1 = k) := by
  intro m
  induction m with
  | nil => rfl
  | cons p t ih =>
    by_cases hp : p.1 = j
    · simp only [List.map_cons, if_pos hp]
      rw [find?_cons_neg (fun p => p.1 = k) (j, v)
        (t.map (fun p => if p.1 = j then (j, v) else p)) (by simp [hjk]),
        find?_cons_neg (fun p => p.1 = k) p t (by simp [hp ▸ hjk]), ih]
    · simp only [List.map_cons, if_neg hp]
      by_cases hk : p.1 = k
      · rw [find?_cons_pos (fun p => p.1 = k) p
          (t.map (fun p => if p.1 = j then (j, v) else p)) (by simp [hk]),
          find?_cons_pos (fun p => p.1 = k) p t (by simp [hk])]
      · rw [find?_cons_neg (fun p => p.1 = k) p
          (t.map (fun p => if p.1 = j then (j, v) else p)) (by simp [hk]),
          find?_cons_neg (fun p => p.1 = k) p t (by simp [hk]), ih]

theorem find_append_ne {j k : String} (hjk : j ≠ k) (v : Cand) :
    ∀ m : BestMap,
      (m ++ [(j, v)]).find? (fun p => p.1 = k) = m.find? (fun p => p.1 = k) := by
  intro m
  induction m with
  | nil =>
    simp only [List.nil_append]
    rw [find?_cons_neg (fun p => p.1 = k) (j, v) [] (by simp [hjk])]
  | cons p t ih =>
    simp only [List.cons_append]
    by_cases hk : p.1 = k
    · rw [find?_cons_pos (fun p => p.1 = k) p (t ++ [(j, v)]) (by simp [hk]),
        find?_cons_pos (fun p => p.1 = k) p t (by simp [hk])]
    · rw [find?_cons_neg (fun p => p.1 = k) p (t ++ [(j, v)]) (by simp [hk]),
        find?_cons_neg (fun p => p.1 = k) p t (by simp [hk]), ih]

theorem map_find_set_ne (m : BestMap) {j k : String} (hjk : j ≠ k) (v : Cand) :
    map_find (map_set m j v) k = map_find m k := by
  unfold map_find map_set
  by_cases h : m.any (fun p => p.1 = j) = true
  · rw [if_pos h, find_replace_ne hjk v m]
  · rw [if_neg h, find_append_ne hjk v m]

theorem best_cand_fold_map :
    ∀ (l : List ResolverRow) (acc : Option ResolverRow),
      l.foldl best_cand_step (acc.map row_cand) = (l.foldl best_row_step acc).map row_cand := by
  intro l
  induction l with
  | nil => intro acc; rfl
  | cons x xs ih =>
    intro acc
    rw [List.foldl_cons, List.foldl_cons]
    cases acc with
    | none =>
      have h1 : best_cand_step ((none : Option ResolverRow).map row_cand) x
          = (some x).map row_cand := rfl
      have h2 : best_row_step none x = some x := rfl
      rw [h1, h2, ih (some x)]
    | some b =>
      by_cases hgt : score_gt (row_score x) (row_score b) = true
      · have h1 : best_cand_step ((some b).map row_cand) x = (some x).map row_cand := by
          simp [best_cand_step, row_cand, hgt]
        have h2 : best_row_step (some b) x = some x := by
          simp [best_row_step, hgt]
        rw [h1, h2, ih (some x)]
      · have hgt' := Bool.eq_false_iff.mpr (fun hh => hgt hh)
        have h1 : best_cand_step ((some b).map row_cand) x = (some b).map row_cand := by
          simp [best_cand_step, row_cand, hgt']
        have h2 : best_row_step (some b) x = some b := by
          simp [best_row_step, hgt']
        rw [h1, h2, ih (some b)]

theorem filter_cons_pos {α : Type} (p : α → Bool) (a : α) (l : List α) (h : p a = true) :
    (a :: l).filter p = a :: l.filter p := by
  simp [List.filter_cons, h]

theorem filter_cons_neg {α : Type} (p : α → Bool) (a : α) (l : List α) (h : p a = false) :
    (a :: l).filter p = l.filter p := by
  simp [List.filter_cons, h]

theorem resolver_find_invariant (dup_codes : List String) (k : String) :
    ∀ (rows : List ResolverRow) (m : BestMap) (out : List ResolverRow),
      map_find ((rows.foldl (resolver_step dup_codes) (m, out)).1) k
        = (rows.filter
            (fun r => in_dup_set dup_codes r && decide (r.code_norm = k))).foldl
              best_cand_step (map_find m k) := by
  intro rows
  induction rows with
  | nil => intro m out; rfl
  | cons r rest ih =>
    intro m out
    rw [List.foldl_cons]
    by_cases hdup : in_dup_set dup_codes r = true
    · by_cases hkk : r.code_norm = k
      · have hcond : (in_dup_set dup_codes r && decide (r.code_norm = k)) = true := by
          simp [hdup, hkk]
        rw [filter_cons_pos
          (fun r => in_dup_set dup_codes r && decide (r.code_norm = k)) r rest hcond,
          List.foldl_cons]
        cases hfind : map_find m r.code_norm with
        | none =>
          have hstep : resolver_step dup_codes (m, out) r
              = (map_set m r.code_norm (row_cand r), out) := by
            simp [resolver_step, hdup, hfind]
          rw [hstep, ih]
          have hbc : best_cand_step (map_find m k) r = some (row_cand r) := by
            rw [← hkk, hfind]
            rfl
          rw [hbc, ← hkk, map_find_set_self]
        | some e =>
          by_cases hgt : score_gt (row_score r) e.1 = true
          · have hstep : resolver_step dup_codes (m, out) r
                = (map_set m r.code_norm (row_cand r), out) := by
              simp [resolver_step, hdup, hfind, hgt]
            rw [hstep, ih]
            have hbc : best_cand_step (map_find m k) r = some (row_cand r) := by
              rw [← hkk, hfind]
              simp [best_cand_step, hgt]
            rw [hbc, ← hkk, map_find_set_self]
          · have hgt' := Bool.eq_false_iff.mpr (fun hh => hgt hh)
            have hstep : resolver_step dup_codes (m, out) r = (m, out) := by
              simp [resolver_step, hdup, hfind, hgt']
            rw [hstep, ih]
            have hbc : best_cand_step (map_find m k) r = map_find m k := by
              rw [← hkk, hfind]
              simp [best_cand_step, hgt']
            rw [hbc]
      · have hcond : (in_dup_set dup_codes r && decide (r.code_norm = k)) = false := by
          simp [hkk]
        rw [filter_cons_neg
          (fun r => in_dup_set dup_codes r && decide (r.code_norm = k)) r rest hcond]
        have hne : r.code_norm ≠ k := hkk
        cases hfind : map_find m r.code_norm with
        | none =>
          have hstep : resolver_step dup_codes (m, out) r
              = (map_set m r.code_norm (row_cand r), out) := by
            simp [resolver_step, hdup, hfind]
          rw [hstep, ih]
          rw [map_find_set_ne m hne]
        | some e =>
          by_cases hgt : score_gt (row_score r) e.1 = true
          · have hstep : resolver_step dup_codes (m, out) r
                = (map_set m r.code_norm (row_cand r), out) := by
              simp [resolver_step, hdup, hfind, hgt]
            rw [hstep, ih, map_find_set_ne m hne]
          · have hgt' := Bool.eq_false_iff.mpr (fun hh => hgt hh)
            have hstep : resolver_step dup_codes (m, out) r = (m, out) := by
              simp [resolver_step, hdup, hfind, hgt']
            rw [hstep, ih]
    · have hdup' := Bool.eq_false_iff.mpr (fun hh => hdup hh)
      have hcond : (in_dup_set dup_codes r && decide (r.code_norm = k)) = false := by
        simp [hdup']
      rw [filter_cons_neg
        (fun r => in_dup_set dup_codes r && decide (r.code_norm = k)) r rest hcond]
      have hstep : resolver_step dup_codes (m, out) r = (m, out ++ [r]) := by
        simp [resolver_step, hdup']
      rw [hstep, ih]

/-- The keys of the `duplicate_best` dict, in insertion order. -/
def map_keys (m : BestMap) : List String :=
  m.map (fun p => p.1)

theorem map_keys_set (m : BestMap) (k : String) (v : Cand) :
    map_keys (map_set m k v)
      = if m.any (fun p => p.1 = k) then map_keys m else map_keys m ++ [k] := by
  unfold map_set map_keys
  by_cases h : m.any (fun p => p.1 = k) = true
  · rw [if_pos h, if_pos h, List.map_map]
    apply List.map_congr_left
    intro p _
    by_cases hp : p.1 = k
    · simp [hp]
    · simp [hp]
  · rw [if_neg h, if_neg h, List.map_append]
    rfl

theorem map_keys_set_nodup (m : BestMap) (k : String) (v : Cand)
    (h : (map_keys m).Nodup) : (map_keys (map_set m k v)).Nodup := by
  rw [map_keys_set]
  by_cases hany : m.any (fun p => p.1 = k) = true
  · rw [if_pos hany]
    exact h
  · rw [if_neg hany]
    have hnot : k ∉ map_keys m := by
      intro hmem
      apply hany
      rcases List.mem_map.mp hmem with ⟨p, hp, hpk⟩
      exact List.any_eq_true.mpr ⟨p, hp, by simp [hpk]⟩
    rw [List.nodup_append]
    refine ⟨h, List.nodup_singleton k, ?_⟩
    intro a ha hb
    rw [List.mem_singleton.mp hb] at ha
    exact hnot ha

theorem resolver_keys_nodup (dup_codes : List String) :
    ∀ (rows : List ResolverRow) (m : BestMap) (out : List ResolverRow),
      (map_keys m).Nodup →
      (map_keys ((rows.foldl (resolver_step dup_codes) (m, out)).1)).Nodup := by
  intro rows
  induction rows with
  | nil => intro m out h; exact h
  | cons r rest ih =>
    intro m out h
    rw [List.foldl_cons]
    by_cases hdup : in_dup_set dup_codes r = true
    · cases hfind : map_find m r.code_norm with
      | none =>
        have hstep : resolver_step dup_codes (m, out) r
            = (map_set m r.code_norm (row_cand r), out) := by
          simp [resolver_step, hdup, hfind]
        rw [hstep]
        exact ih _ _ (map_keys_set_nodup m r.code_norm (row_cand r) h)
      | some e =>
        by_cases hgt : score_gt (row_score r) e.1 = true
        · have hstep : resolver_step dup_codes (m, out) r
              = (map_set m r.code_norm (row_cand r), out) := by
            simp [resolver_step, hdup, hfind, hgt]
          rw [hstep]
          exact ih _ _ (map_keys_set_nodup m r.code_norm (row_cand r) h)
        · have hgt' := Bool.eq_false_iff.mpr (fun hh => hgt hh)
          have hstep : resolver_step dup_codes (m, out) r = (m, out) := by
            simp [resolver_step, hdup, hfind, hgt']
          rw [hstep]
          exact ih _ _ h
    · have hdup' := Bool.eq_false_iff.mpr (fun hh => hdup hh)
      have hstep : resolver_step dup_codes (m, out) r = (m, out ++ [r]) := by
        simp [resolver_step, hdup']
      rw [hstep]
      exact ih _ _ h

theorem resolver_emit_fold :
    ∀ (m : BestMap) (acc : List Cand) (n : Nat),
      m.foldl (fun acc p => (acc.1 ++ [p.2], acc.2 + 1)) (acc, n)
        = (acc ++ m.map (fun p => p.2), n + m.length) := by
  intro m
  induction m with
  | nil => intro acc n; simp
  | cons p t ih =>
    intro acc n
    rw [List.foldl_cons, ih]
    congr 1
    · simp
    · simp only [List.length_cons]
      omega

/-- C2: for every key `k` of the supplied duplicate-key set, the retained
candidate for `k` after the stream is exactly the candidate built from the
first row (in stream order) of the rows keyed `k` whose score tuple is
lexicographically maximal (ties keep the first seen, since the comparison
is strict `>`); at end of stream the emission pass emits the retained
candidates exactly once each (the dict's keys are distinct and each entry
is emitted once, in insertion order) and `duplicates_resolved` equals the
number of retained keys.  The rows are restricted to `last_modified_t`
values that are empty or ASCII-integer strings — the domain on which
`py_int` is an exact model of the program's `int()` call. -/
theorem duplicate_resolver_correct (dup_codes : List String)
    (rows : List ResolverRow) (k : String) (hk : k ∈ dup_codes)
    (hascii : ∀ r ∈ rows, ascii_int_string r.last_modified_t = true) :
    map_find (resolver_run dup_codes rows).1 k
      = (first_best (rows.filter (fun r => decide (r.code_norm = k)))).map row_cand ∧
    (resolver_emit (resolver_run dup_codes rows).1).1
      = ((resolver_run dup_codes rows).1).map (fun p => p.2) ∧
    (map_keys (resolver_run dup_codes rows).1).Nodup ∧
    (resolver_emit (resolver_run dup_codes rows).1).2
      = ((resolver_run dup_codes rows).1).length := by
  refine ⟨?_, ?_, ?_, ?_⟩
  · show map_find ((rows.foldl (resolver_step dup_codes) ([], [])).1) k = _
    rw [resolver_find_invariant dup_codes k rows [] []]
    have hfilter : rows.filter (fun r => in_dup_set dup_codes r && decide (r.code_norm = k))
        = rows.filter (fun r => decide (r.code_norm = k)) := by
      apply List.filter_congr
      intro r _
      by_cases hc : r.code_norm = k
      · have hin : in_dup_set dup_codes r = true := by
          simp [in_dup_set, hc, hk, List.ne_nil_of_mem hk]
        simp [hin]
      · simp [hc]
    rw [hfilter]
    have hnone : map_find [] k = (Option.map row_cand none) := rfl
    rw [hnone, best_cand_fold_map, best_row_fold_none]
  · show (resolver_emit (resolver_run dup_codes rows).1).1 = _
    unfold resolver_emit
    rw [resolver_emit_fold]
    simp
  · exact resolver_keys_nodup dup_codes rows [] [] (by simp [map_keys])
  · show (resolver_emit (resolver_run dup_codes rows).1).2 = _
    unfold resolver_emit
    rw [resolver_emit_fold]
    simp

/-- C2 (witness): two rows sharing the key `111`; the retained candidate
is the one with the lexicographically greater score tuple. -/
theorem duplicate_resolver_correct_witness :
    map_find (resolver_run ["111"]
      [⟨"111", "100", 1, ["a", "b"], "p1", ["n1"]⟩,
       ⟨"111", "200", 0, [], "p2", []⟩]).1 "111"
      = (first_best ([(⟨"111", "100", 1, ["a", "b"], "p1", ["n1"]⟩ : ResolverRow),
          ⟨"111", "200", 0, [], "p2", []⟩].filter
            (fun r => decide (r.code_norm = "111")))).map row_cand :=
  (duplicate_resolver_correct ["111"]
    [⟨"111", "100", 1, ["a", "b"], "p1", ["n1"]⟩,
     ⟨"111", "200", 0, [], "p2", []⟩] "111" (by decide) (by decide)).1

/-! ## Chunked Bulk Loader retry (`copy_with_retry`, ingest_tsv.py lines
419-451)

The loop `for attempt in range(retries + 1)` tries to COPY the buffered
chunk and commit.  A `SerializationFailure` rolls back and, unless the
attempt budget is exhausted, sleeps `min(retry_sleep_s * 2**attempt, 10.0)
+ jitter` and retries the same buffer; at `attempt = retries` the error
propagates.  Any other exception rolls back and propagates immediately.
The database's behaviour on attempt `i` is modelled by an oracle
`outcome : Nat → DbOutcome`, the random jitter by an oracle
`jitter : Nat → ℚ`, and the run by the list of database events it
performs plus its final result. -/

inductive DbOutcome
  | ok
  | transient
  | fatal
deriving DecidableEq, Repr

inductive RetryEv
  | copy_chunk (data : String) (attempt : Nat)
  | commit_ev
  | rollback_ev
  | sleep_ev (seconds : ℚ)
deriving DecidableEq, Repr

inductive RunOutcome
  | committed (attempt : Nat)
  | raised_transient
  | raised_fatal
deriving DecidableEq, Repr

/-- The sleep before retry `attempt + 1` (ingest_tsv.py lines 436-439). -/
def retry_sleep (base : ℚ) (jitter : Nat → ℚ) (attempt : Nat) : ℚ :=
  min (base * 2 ^ attempt) 10 + jitter attempt

/-- Embedding of the `copy_with_retry` loop body from attempt `attempt`
on, with `fuel` loop iterations remaining (`retries + 1 - attempt`; the
loop raises at `attempt = retries`, so the out-of-fuel case is never
reached from the top-level call). -/
def copy_with_retry_aux (retries : Nat) (base : ℚ) (jitter : Nat → ℚ)
    (outcome : Nat → DbOutcome) (data : String) :
    Nat → Nat → List RetryEv × RunOutcome
  | _, 0 => ([], RunOutcome.raised_transient)
  | attempt, fuel + 1 =>
    match outcome attempt with
    | DbOutcome.ok =>
      ([RetryEv.copy_chunk data attempt, RetryEv.commit_ev], RunOutcome.committed attempt)
    | DbOutcome.fatal =>
      ([RetryEv.copy_chunk data attempt, RetryEv.rollback_ev], RunOutcome.raised_fatal)
    | DbOutcome.transient =>
      if retries ≤ attempt then
        ([RetryEv.copy_chunk data attempt, RetryEv.rollback_ev], RunOutcome.raised_transient)
      else
        let r := copy_with_retry_aux retries base jitter outcome data (attempt + 1) fuel
        (RetryEv.copy_chunk data attempt :: RetryEv.rollback_ev ::
          RetryEv.sleep_ev (retry_sleep base jitter attempt) :: r.1, r.2)

/-- Embedding of one call of `copy_with_retry` on a buffered chunk. -/
def copy_with_retry_run (retries : Nat) (base : ℚ) (jitter : Nat → ℚ)
    (outcome : Nat → DbOutcome) (data : String) : List RetryEv × RunOutcome :=
  copy_with_retry_aux retries base jitter outcome data 0 (retries + 1)

/-- The events of `k` consecutive failed transient attempts starting at
attempt `a`: each one copies the same chunk, rolls back, and sleeps the
backoff amount. -/
def transient_trace (data : String) (base : ℚ) (jitter : Nat → ℚ) (a k : Nat) :
    List RetryEv :=
  (List.range' a k).flatMap
    (fun i => [RetryEv.copy_chunk data i, RetryEv.rollback_ev,
      RetryEv.sleep_ev (retry_sleep base jitter i)])

theorem copy_with_retry_aux_skip (retries : Nat) (base : ℚ) (jitter : Nat → ℚ)
    (outcome : Nat → DbOutcome) (data : String) :
    ∀ (k a : Nat), a + k ≤ retries →
      (∀ i, a ≤ i → i < a + k → outcome i = DbOutcome.transient) →
      copy_with_retry_aux retries base jitter outcome data a (retries + 1 - a)
        = (transient_trace data base jitter a k
            ++ (copy_with_retry_aux retries base jitter outcome data (a + k)
                 (retries + 1 - (a + k))).1,
           (copy_with_retry_aux retries base jitter outcome data (a + k)
             (retries + 1 - (a + k))).2) := by
  intro k
  induction k with
  | zero =>
    intro a _ _
    simp [transient_trace]
  | succ k ih =>
    intro a hak htr
    have ha : a < retries := by omega
    have hfuel : retries + 1 - a = (retries + 1 - (a + 1)) + 1 := by omega
    have hout : outcome a = DbOutcome.transient := htr a le_rfl (by omega)
    rw [hfuel]
    have hstep : copy_with_retry_aux retries base jitter outcome data a
        ((retries + 1 - (a + 1)) + 1)
        = (RetryEv.copy_chunk data a :: RetryEv.rollback_ev ::
            RetryEv.sleep_ev (retry_sleep base jitter a) ::
            (copy_with_retry_aux retries base jitter outcome data (a + 1)
              (retries + 1 - (a + 1))).1,
           (copy_with_retry_aux retries base jitter outcome data (a + 1)
             (retries + 1 - (a + 1))).2) := by
      simp [copy_with_retry_aux, hout, Nat.not_le.mpr ha]
    rw [hstep, ih (a + 1) (by omega) (fun i h1 h2 => htr i (by omega) (by omega))]
    have hr : a + 1 + k = a + (k + 1) := by omega
    rw [hr]
    have htt : transient_trace data base jitter a (k + 1)
        = RetryEv.copy_chunk data a :: RetryEv.rollback_ev ::
            RetryEv.sleep_ev (retry_sleep base jitter a) ::
            transient_trace data base jitter (a + 1) k := by
      unfold transient_trace
      rw [List.range'_succ]
      simp
    rw [htt]
    simp

/-- Events that are bulk-load calls. -/
def is_copy : RetryEv → Bool
  | RetryEv.copy_chunk _ _ => true
  | _ => false

/-- Events that are transaction commits. -/
def is_commit : RetryEv → Bool
  | RetryEv.commit_ev => true
  | _ => false

/-- Events that are transaction rollbacks. -/
def is_rollback : RetryEv → Bool
  | RetryEv.rollback_ev => true
  | _ => false

theorem copy_with_retry_aux_invariant (retries : Nat) (base : ℚ) (jitter : Nat → ℚ)
    (outcome : Nat → DbOutcome) (data : String) :
    ∀ (fuel a : Nat),
      (copy_with_retry_aux retries base jitter outcome data a fuel).1.countP is_commit
        = (match (copy_with_retry_aux retries base jitter outcome data a fuel).2 with
           | RunOutcome.committed _ => 1
           | _ => 0) ∧
      (copy_with_retry_aux retries base jitter outcome data a fuel).1.countP is_copy
        = (copy_with_retry_aux retries base jitter outcome data a fuel).1.countP is_commit
          + (copy_with_retry_aux retries base jitter outcome data a fuel).1.countP is_rollback ∧
      (∀ d i, RetryEv.copy_chunk d i ∈ (copy_with_retry_aux retries base jitter outcome data a fuel).1
        → d = data) := by
  intro fuel
  induction fuel with
  | zero =>
    intro a
    refine ⟨rfl, rfl, ?_⟩
    intro d i h
    simp [copy_with_retry_aux] at h
  | succ fuel ih =>
    intro a
    cases hout : outcome a with
    | ok =>
      refine ⟨?_, ?_, ?_⟩ <;>
        simp [copy_with_retry_aux, hout, is_copy, is_commit, is_rollback, List.countP_cons]
    | fatal =>
      refine ⟨?_, ?_, ?_⟩ <;>
        simp [copy_with_retry_aux, hout, is_copy, is_commit, is_rollback, List.countP_cons]
    | transient =>
      by_cases hra : retries ≤ a
      · refine ⟨?_, ?_, ?_⟩ <;>
          simp [copy_with_retry_aux, hout, hra, is_copy, is_commit, is_rollback, List.countP_cons]
      · obtain ⟨ih1, ih2, ih3⟩ := ih (a + 1)
        have hstep : copy_with_retry_aux retries base jitter outcome data a (fuel + 1)
            = (RetryEv.copy_chunk data a :: RetryEv.rollback_ev ::
                RetryEv.sleep_ev (retry_sleep base jitter a) ::
                (copy_with_retry_aux retries base jitter outcome data (a + 1) fuel).1,
               (copy_with_retry_aux retries base jitter outcome data (a + 1) fuel).2) := by
          simp [copy_with_retry_aux, hout, hra]
        rw [hstep]
        refine ⟨?_, ?_, ?_⟩
        · simpa [List.countP_cons, is_commit] using ih1
        · simp [List.countP_cons, is_copy, is_commit, is_rollback]
          omega
        · intro d i h
          simp only [List.mem_cons] at h
          rcases h with h | h | h | h
          · cases h
            rfl
          · cases h
          · cases h
          · exact ih3 d i h

/-- C3: for every chunk submitted through `copy_with_retry`: after `k`
transient serialization failures the identical buffered chunk is retried,
sleeping `min(base * 2^attempt, 10) + jitter attempt` between attempts,
and commits on a later success (first conjunct); if every attempt up to
the retry limit fails transiently, the error propagates after
`retries + 1` attempts (second conjunct); a non-transient error rolls
back and propagates immediately with zero further retries (third
conjunct); and in every run each bulk-load call is followed by exactly
one commit or rollback, at most one commit ever happens, and every
bulk-load call carries the same chunk — no chunk is partially committed
(fourth conjunct). -/
theorem copy_with_retry_spec (retries : Nat) (base : ℚ) (jitter : Nat → ℚ)
    (outcome : Nat → DbOutcome) (data : String) (k : Nat) :
    ((∀ i, i < k → outcome i = DbOutcome.transient) → k ≤ retries →
      outcome k = DbOutcome.ok →
      copy_with_retry_run retries base jitter outcome data
        = (transient_trace data base jitter 0 k
            ++ [RetryEv.copy_chunk data k, RetryEv.commit_ev],
           RunOutcome.committed k)) ∧
    ((∀ i, i ≤ retries → outcome i = DbOutcome.transient) →
      copy_with_retry_run retries base jitter outcome data
        = (transient_trace data base jitter 0 retries
            ++ [RetryEv.copy_chunk data retries, RetryEv.rollback_ev],
           RunOutcome.raised_transient)) ∧
    ((∀ i, i < k → outcome i = DbOutcome.transient) → k ≤ retries →
      outcome k = DbOutcome.fatal →
      copy_with_retry_run retries base jitter outcome data
        = (transient_trace data base jitter 0 k
            ++ [RetryEv.copy_chunk data k, RetryEv.rollback_ev],
           RunOutcome.raised_fatal)) ∧
    ((copy_with_retry_run retries base jitter outcome data).1.countP is_commit
        = (match (copy_with_retry_run retries base jitter outcome data).2 with
           | RunOutcome.committed _ => 1
           | _ => 0) ∧
      (copy_with_retry_run retries base jitter outcome data).1.countP is_copy
        = (copy_with_retry_run retries base jitter outcome data).1.countP is_commit
          + (copy_with_retry_run retries base jitter outcome data).1.countP is_rollback ∧
      (∀ d i, RetryEv.copy_chunk d i
        ∈ (copy_with_retry_run retries base jitter outcome data).1 → d = data)) := by
  have hrun : copy_with_retry_run retries base jitter outcome data
      = copy_with_retry_aux retries base jitter outcome data 0 (retries + 1 - 0) := rfl
  refine ⟨?_, ?_, ?_, ?_⟩
  · intro htr hk hok
    rw [hrun, copy_with_retry_aux_skip retries base jitter outcome data k 0 (by omega)
      (fun i h1 h2 => htr i (by omega))]
    have hfuel : retries + 1 - (0 + k) = (retries - k) + 1 := by omega
    have hleaf : copy_with_retry_aux retries base jitter outcome data (0 + k)
        ((retries - k) + 1)
        = ([RetryEv.copy_chunk data k, RetryEv.commit_ev], RunOutcome.committed k) := by
      have hzk : 0 + k = k := by omega
      rw [hzk]
      simp [copy_with_retry_aux, hok]
    rw [hfuel, hleaf]
  · intro htr
    rw [hrun, copy_with_retry_aux_skip retries base jitter outcome data retries 0 (by omega)
      (fun i h1 h2 => htr i (by omega))]
    have hfuel : retries + 1 - (0 + retries) = 1 := by omega
    have hleaf : copy_with_retry_aux retries base jitter outcome data (0 + retries) 1
        = ([RetryEv.copy_chunk data retries, RetryEv.rollback_ev],
           RunOutcome.raised_transient) := by
      have hzk : 0 + retries = retries := by omega
      rw [hzk]
      show copy_with_retry_aux retries base jitter outcome data retries (0 + 1) = _
      simp [copy_with_retry_aux, htr retries le_rfl]
    rw [hfuel, hleaf]
  · intro htr hk hfat
    rw [hrun, copy_with_retry_aux_skip retries base jitter outcome data k 0 (by omega)
      (fun i h1 h2 => htr i (by omega))]
    have hfuel : retries + 1 - (0 + k) = (retries - k) + 1 := by omega
    have hleaf : copy_with_retry_aux retries base jitter outcome data (0 + k)
        ((retries - k) + 1)
        = ([RetryEv.copy_chunk data k, RetryEv.rollback_ev], RunOutcome.raised_fatal) := by
      have hzk : 0 + k = k := by omega
      rw [hzk]
      simp [copy_with_retry_aux, hfat]
    rw [hfuel, hleaf]
  · exact copy_with_retry_aux_invariant retries base jitter outcome data (retries + 1) 0

/-- C3 (witness): with retry limit 2, a first transient failure followed
by a success commits the same chunk on attempt 1, after one backoff sleep
of `min(1/2 * 2^0, 10) + 1/100`. -/
theorem copy_with_retry_spec_witness :
    copy_with_retry_run 2 (1/2 : ℚ) (fun _ => (1/100 : ℚ))
      (fun i => if i = 0 then DbOutcome.transient else DbOutcome.ok) "chunk"
      = (transient_trace "chunk" (1/2 : ℚ) (fun _ => (1/100 : ℚ)) 0 1
          ++ [RetryEv.copy_chunk "chunk" 1, RetryEv.commit_ev],
         RunOutcome.committed 1) :=
  (copy_with_retry_spec 2 (1/2 : ℚ) (fun _ => (1/100 : ℚ))
    (fun i => if i = 0 then DbOutcome.transient else DbOutcome.ok) "chunk" 1).1
    (fun i hi => by
      have h0 : i = 0 := by omega
      rw [h0]
      rfl)
    (by omega)
    rfl

/-! ## Manifest Gate (ingest_tsv.py lines 237-299)

The gate runs before the input file is opened and before any database
connection: it checks the preflight identity, cross-checks the manifest,
rejects conflicting duplicate configuration, loads the duplicate-code
list, and enforces the duplicate policy.  Manifest fields are modelled as
`Option`s (`none` = key absent); a present-but-malformed field aborts the
run in the code and is not distinguished here.  `files` maps a
duplicate-codes path to its stripped non-blank lines (`none` = missing
file). -/

structure ManifestData where
  file_sha256 : Option String
  file_bytes : Option Int
  duplicates_found : Option Bool
  duplicate_values : Option Int
  duplicate_occurrences : Option Int
  duplicate_codes_path : Option String
deriving DecidableEq, Repr

structure GateArgs where
  expected_sha256 : Option String
  preflight_manifest : Option ManifestData
  dedupe_memory : Bool
  duplicate_codes_arg : Option String
deriving Repr

/-- Python truthiness of an optional string: `None` and `""` are falsy. -/
def py_truthy_str (s : Option String) : Bool :=
  match s with
  | none => false
  | some s => decide (s ≠ "")

/-- The check `args.expected_sha256 and file_sha256 != args.expected_sha256`
(ingest_tsv.py line 245). -/
def expected_sha_mismatch (file_sha : String) (o : Option String) : Bool :=
  match o with
  | none => false
  | some s => decide (s ≠ "") && decide (file_sha ≠ s)

/-- The manifest cross-check of ingest_tsv.py lines 253-280: verify
`file_sha256` and `file_bytes` against the live file, require
`duplicates_found`, and derive the duplicate signal
`duplicates_found or duplicate_values > 0 or duplicate_occurrences > 0`
plus the manifest's `duplicate_codes_path`. -/
def gate_manifest_check (file_sha : String) (file_bytes : Int) (m : ManifestData) :
    Except String (Bool × Option String) :=
  match m.file_sha256 with
  | none => Except.error "Preflight manifest missing file_sha256"
  | some msha =>
    if msha = "" then Except.error "Preflight manifest missing file_sha256"
    else if msha ≠ file_sha then Except.error "Preflight SHA-256 mismatch"
    else
      match m.file_bytes with
      | none => Except.error "Preflight manifest missing file_bytes"
      | some mb =>
        if mb ≠ file_bytes then Except.error "Preflight byte-size mismatch"
        else
          match m.duplicates_found with
          | none => Except.error "Preflight manifest missing duplicates_found"
          | some df =>
            Except.ok (df || decide (0 < m.duplicate_values.getD 0)
              || decide (0 < m.duplicate_occurrences.getD 0), m.duplicate_codes_path)

/-- The manifest branch of ingest_tsv.py lines 250-280: without a
manifest the duplicate signal is false and there is no manifest code
path. -/
def gate_step2 (file_sha : String) (file_bytes : Int) (args : GateArgs) :
    Except String (Bool × Option String) :=
  match args.preflight_manifest with
  | none => Except.ok (false, none)
  | some m => gate_manifest_check file_sha file_bytes m

/-- ingest_tsv.py lines 285-291: the explicit `--duplicate-codes` path
wins; otherwise a truthy manifest path is used. -/
def gate_resolve_path (args : GateArgs) (manifest_codes_path : Option String) :
    Option String :=
  match args.duplicate_codes_arg with
  | some p => some p
  | none => if py_truthy_str manifest_codes_path then manifest_codes_path else none

/-- ingest_tsv.py lines 292-294 with `_load_duplicate_codes` (lines
118-124): load the duplicate-code lines; a missing file is fatal. -/
def gate_load_codes (files : String → Option (List String)) :
    Option String → Except String (Option (List String))
  | none => Except.ok none
  | some p =>
    match files p with
    | none => Except.error "Missing duplicate codes file"
    | some codes => Except.ok (some codes)

/-- ingest_tsv.py lines 296-299: the duplicate-policy check (an empty or
absent duplicate-code set is falsy). -/
def gate_policy (args : GateArgs) (manifest_duplicates : Bool)
    (duplicate_codes : Option (List String)) : Except String (Option (List String)) :=
  if manifest_duplicates && !args.dedupe_memory
      && !(decide (duplicate_codes.getD [] ≠ [])) then
    Except.error "Preflight reported duplicates; pass --duplicate-codes from preflight (preferred) or use --dedupe memory."
  else
    Except.ok duplicate_codes

/-- Embedding of the whole gate (ingest_tsv.py lines 237-299), returning
the loaded duplicate-code list on success. -/
def manifest_gate (file_sha : String) (file_bytes : Int)
    (files : String → Option (List String)) (args : GateArgs) :
    Except String (Option (List String)) :=
  if !py_truthy_str args.expected_sha256 && !args.preflight_manifest.isSome then
    Except.error "Missing preflight identity: pass --expected-sha256 or --preflight-manifest"
  else if expected_sha_mismatch file_sha args.expected_sha256 then
    Except.error "SHA-256 mismatch"
  else
    match gate_step2 file_sha file_bytes args with
    | Except.error e => Except.error e
    | Except.ok (manifest_duplicates, manifest_codes_path) =>
      if args.dedupe_memory && args.duplicate_codes_arg.isSome then
        Except.error "Use either --dedupe memory or --duplicate-codes, not both."
      else
        match gate_load_codes files (gate_resolve_path args manifest_codes_path) with
        | Except.error e => Except.error e
        | Except.ok duplicate_codes => gate_policy args manifest_duplicates duplicate_codes

/-- The importer's phase structure: the gate runs first; only on gate
success does the load phase (abstracted as `load`, producing the list of
committed chunks) run at all. -/
def importer_main (file_sha : String) (file_bytes : Int)
    (files : String → Option (List String)) (args : GateArgs)
    (load : Option (List String) → List String) : Except String (List String) :=
  match manifest_gate file_sha file_bytes files args with
  | Except.error e => Except.error e
  | Except.ok codes => Except.ok (load codes)

theorem gate_manifest_check_cases (file_sha : String) (file_bytes : Int)
    (m : ManifestData) :
    (∃ e, gate_manifest_check file_sha file_bytes m = Except.error e) ∨
    (∃ df, m.duplicates_found = some df ∧
      gate_manifest_check file_sha file_bytes m
        = Except.ok (df || decide (0 < m.duplicate_values.getD 0)
            || decide (0 < m.duplicate_occurrences.getD 0), m.duplicate_codes_path)) := by
  unfold gate_manifest_check
  split
  · exact Or.inl ⟨_, rfl⟩
  · split
    · exact Or.inl ⟨_, rfl⟩
    · split
      · exact Or.inl ⟨_, rfl⟩
      · split
        · exact Or.inl ⟨_, rfl⟩
        · split
          · exact Or.inl ⟨_, rfl⟩
          · split
            · exact Or.inl ⟨_, rfl⟩
            · next df hdf => exact Or.inr ⟨df, hdf, rfl⟩

/-- C4: whenever the supplied manifest carries a duplicate signal
(`duplicates_found` true, or `duplicate_values > 0`, or
`duplicate_occurrences > 0`) and neither a duplicate-key list (by
argument or by manifest path) nor in-memory dedupe is configured, the
gate fails, and hence the importer aborts fatally with no load phase
ever run. -/
theorem duplicate_gate_aborts (file_sha : String) (file_bytes : Int)
    (files : String → Option (List String)) (args : GateArgs) (m : ManifestData)
    (hm : args.preflight_manifest = some m)
    (hsig : m.duplicates_found = some true ∨ 0 < m.duplicate_values.getD 0 ∨
      0 < m.duplicate_occurrences.getD 0)
    (hmem : args.dedupe_memory = false)
    (harg : args.duplicate_codes_arg = none)
    (hpath : m.duplicate_codes_path = none) :
    (∃ e, manifest_gate file_sha file_bytes files args = Except.error e) ∧
    (∀ load, ∃ e, importer_main file_sha file_bytes files args load = Except.error e) := by
  have hgate : ∃ e, manifest_gate file_sha file_bytes files args = Except.error e := by
    unfold manifest_gate
    have hsome : args.preflight_manifest.isSome = true := by
      rw [hm]
      rfl
    rw [hsome]
    simp only [Bool.not_true, Bool.and_false, Bool.false_eq_true, if_false]
    by_cases hmis : expected_sha_mismatch file_sha args.expected_sha256 = true
    · rw [if_pos hmis]
      exact ⟨_, rfl⟩
    · rw [if_neg hmis]
      have hstep : gate_step2 file_sha file_bytes args
          = gate_manifest_check file_sha file_bytes m := by
        unfold gate_step2
        rw [hm]
      rw [hstep]
      rcases gate_manifest_check_cases file_sha file_bytes m with ⟨e, he⟩ | ⟨df, hdf, hok⟩
      · rw [he]
        exact ⟨e, rfl⟩
      · rw [hok]
        have hmd : (df || decide (0 < m.duplicate_values.getD 0)
            || decide (0 < m.duplicate_occurrences.getD 0)) = true := by
          rcases hsig with hs | hs | hs
          · rw [hdf] at hs
            cases hs
            simp
          · simp [hs]
          · simp [hs]
        have hnomem : (args.dedupe_memory && args.duplicate_codes_arg.isSome) = false := by
          rw [hmem]
          rfl
        rw [hnomem]
        simp only [Bool.false_eq_true, if_false]
        have hrp : gate_resolve_path args m.duplicate_codes_path = none := by
          unfold gate_resolve_path
          rw [harg, hpath]
          rfl
        rw [hrp]
        have hload : gate_load_codes files none = Except.ok none := rfl
        rw [hload]
        unfold gate_policy
        rw [hmd, hmem]
        simp only [Bool.not_false, Bool.and_true, Bool.true_and]
        rw [if_pos (by rfl)]
        exact ⟨_, rfl⟩
  refine ⟨hgate, ?_⟩
  intro load
  obtain ⟨e, he⟩ := hgate
  refine ⟨e, ?_⟩
  unfold importer_main
  rw [he]

/-- C4 (witness): a manifest reporting one duplicate value, with no
duplicate-code list and no in-memory dedupe, is rejected by the gate. -/
theorem duplicate_gate_aborts_witness :
    ∃ e, manifest_gate "abc" 10 (fun _ => none)
      ⟨some "abc", some ⟨some "abc", some 10, some true, some 1, some 1, none⟩,
        false, none⟩ = Except.error e :=
  (duplicate_gate_aborts "abc" 10 (fun _ => none)
    ⟨some "abc", some ⟨some "abc", some 10, some true, some 1, some 1, none⟩, false, none⟩
    ⟨some "abc", some 10, some true, some 1, some 1, none⟩
    rfl (Or.inl rfl) rfl rfl rfl).1

theorem gate_manifest_check_sha_mismatch (file_sha : String) (file_bytes : Int)
    (m : ManifestData) (s : String) (hsha : m.file_sha256 = some s)
    (hne : s ≠ file_sha) :
    ∃ e, gate_manifest_check file_sha file_bytes m = Except.error e := by
  unfold gate_manifest_check
  split
  · exact ⟨_, rfl⟩
  · next msha hmsha =>
    have hms : msha = s := by
      rw [hsha] at hmsha
      cases hmsha
      rfl
    subst hms
    by_cases h1 : msha = ""
    · rw [if_pos h1]
      exact ⟨_, rfl⟩
    · rw [if_neg h1, if_pos hne]
      exact ⟨_, rfl⟩

/-- C5: the Manifest Gate rejects every run whose supplied manifest's
`file_sha256` differs from the hash computed over the live file, and
rejects every run configured with both `--dedupe memory` and an explicit
duplicate-codes file; a gate error means the importer aborts with no load
phase (and hence no database interaction of the load) ever run. -/
theorem manifest_gate_rejects (file_sha : String) (file_bytes : Int)
    (files : String → Option (List String)) (args : GateArgs) :
    (∀ m s, args.preflight_manifest = some m → m.file_sha256 = some s →
      s ≠ file_sha →
      ∃ e, manifest_gate file_sha file_bytes files args = Except.error e) ∧
    (args.dedupe_memory = true → args.duplicate_codes_arg.isSome = true →
      ∃ e, manifest_gate file_sha file_bytes files args = Except.error e) ∧
    (∀ e load, manifest_gate file_sha file_bytes files args = Except.error e →
      importer_main file_sha file_bytes files args load = Except.error e) := by
  refine ⟨?_, ?_, ?_⟩
  · intro m s hm hsha hne
    unfold manifest_gate
    have hsome : args.preflight_manifest.isSome = true := by
      rw [hm]
      rfl
    rw [hsome]
    simp only [Bool.not_true, Bool.and_false, Bool.false_eq_true, if_false]
    by_cases hmis : expected_sha_mismatch file_sha args.expected_sha256 = true
    · rw [if_pos hmis]
      exact ⟨_, rfl⟩
    · rw [if_neg hmis]
      have hstep : gate_step2 file_sha file_bytes args
          = gate_manifest_check file_sha file_bytes m := by
        unfold gate_step2
        rw [hm]
      rw [hstep]
      obtain ⟨e, he⟩ := gate_manifest_check_sha_mismatch file_sha file_bytes m s hsha hne
      rw [he]
      exact ⟨e, rfl⟩
  · intro hmem hcodes
    unfold manifest_gate
    by_cases h1 : (!py_truthy_str args.expected_sha256 && !args.preflight_manifest.isSome) = true
    · rw [if_pos h1]
      exact ⟨_, rfl⟩
    · rw [if_neg h1]
      by_cases hmis : expected_sha_mismatch file_sha args.expected_sha256 = true
      · rw [if_pos hmis]
        exact ⟨_, rfl⟩
      · rw [if_neg hmis]
        have hcond : (args.dedupe_memory && args.duplicate_codes_arg.isSome) = true := by
          rw [hmem, hcodes]
          rfl
        cases hs2 : gate_step2 file_sha file_bytes args with
        | error e => exact ⟨e, rfl⟩
        | ok pair =>
          obtain ⟨md, mcp⟩ := pair
          simp [hcond]
  · intro e load he
    unfold importer_main
    rw [he]

/-- C5 (witness): a manifest whose `file_sha256` disagrees with the live
file's hash is rejected; so is `--dedupe memory` together with an
explicit `--duplicate-codes` file. -/
theorem manifest_gate_rejects_witness :
    (∃ e, manifest_gate "abc" 10 (fun _ => none)
      ⟨none, some ⟨some "zzz", some 10, some false, some 0, some 0, none⟩,
        false, none⟩ = Except.error e) ∧
    (∃ e, manifest_gate "abc" 10 (fun _ => some ["111"])
      ⟨some "abc", none, true, some "dups.txt"⟩ = Except.error e) :=
  ⟨(manifest_gate_rejects "abc" 10 (fun _ => none)
      ⟨none, some ⟨some "zzz", some 10, some false, some 0, some 0, none⟩,
        false, none⟩).1
      ⟨some "zzz", some 10, some false, some 0, some 0, none⟩ "zzz" rfl rfl (by decide),
   (manifest_gate_rejects "abc" 10 (fun _ => some ["111"])
      ⟨some "abc", none, true, some "dups.txt"⟩).2.1 rfl rfl⟩

/-! ## Numeric cell validation and the Row Transformer
(ingest_tsv.py lines 36-53 and 483-562; nutrients.py) -/

/-- An ASCII digit group as accepted inside a Python float literal:
non-empty digits with single underscores allowed only between digits.
`seen` records whether a digit has already been read. -/
def digitsScan : List Char → Bool → Bool
  | [], seen => seen
  | c :: rest, seen =>
    if c = '_' then
      seen && (match rest with
        | [] => false
        | d :: rest2 => asciiDigit d && digitsScan rest2 true)
    else
      asciiDigit c && digitsScan rest true

/-- The mantissa of a float literal: digits, or digits on either side of
a single dot (at least one side non-empty). -/
def float_mantissa (s : List Char) : Bool :=
  match s.splitOn '.' with
  | [a] => digitsScan a false
  | [a, b] =>
    (decide (a = []) || digitsScan a false) && (decide (b = []) || digitsScan b false)
      && !(decide (a = []) && decide (b = []))
  | _ => false

/-- Drop one optional leading sign. -/
def strip_sign (s : List Char) : List Char :=
  match s with
  | c :: r => if c = '+' || c = '-' then r else c :: r
  | [] => []

/-- Model of CPython `float()` acceptance on ASCII inputs: surrounding
whitespace, an optional sign, then either a case-insensitive
`inf`/`infinity`/`nan` or a mantissa with an optional signed exponent.
(Python additionally accepts non-ASCII Unicode decimal digits, which is
not modelled; every input appearing here is ASCII.) -/
def pyFloatValid (s : List Char) : Bool :=
  let t := (pyStripL s).map Char.toLower
  let u := strip_sign t
  if u = "inf".data || u = "infinity".data || u = "nan".data then true
  else
    match u.splitOn 'e' with
    | [m] => float_mantissa m
    | [m, ex] => float_mantissa m && digitsScan (strip_sign ex) false
    | _ => false

/-- Embedding of `_float_or_empty` (ingest_tsv.py lines 36-44): strip the
cell; an empty or non-float cell degrades to the empty string, a valid
float cell passes through stripped. -/
def float_or_empty (value : String) : String :=
  let v := pyStrip value
  if v = "" then ""
  else if pyFloatValid v.data then v
  else ""

/-- Python string-level `str.isdigit`: non-empty and all digit characters. -/
def py_str_isdigit (s : String) : Bool :=
  decide (s.data ≠ []) && s.data.all pyIsDigit

/-- Embedding of `_int_or_empty` (ingest_tsv.py lines 47-53). -/
def int_or_empty (value : String) : String :=
  let v := pyStrip value
  if v = "" then ""
  else if py_str_isdigit v || (decide (v.data.head? = some '-')
      && py_str_isdigit ⟨v.data.tail⟩) then v
  else ""

structure NutrientSpec where
  source_field : String
  nutrient_key : String
  unit : String
deriving DecidableEq, Repr

/-- Embedding of `minimal_nutrients` (nutrients.py lines 13-29). -/
def minimal_nutrients (include_salt : Bool) : List NutrientSpec :=
  [⟨"energy-kcal_100g", "energy_kcal", "kcal"⟩,
   ⟨"energy-kj_100g", "energy_kj", "kJ"⟩,
   ⟨"energy_100g", "energy_kj", "kJ"⟩,
   ⟨"fat_100g", "fat", "g"⟩,
   ⟨"saturated-fat_100g", "saturated_fat", "g"⟩,
   ⟨"carbohydrates_100g", "carbohydrates", "g"⟩,
   ⟨"sugars_100g", "sugars", "g"⟩,
   ⟨"fiber_100g", "fiber", "g"⟩,
   ⟨"proteins_100g", "protein", "g"⟩,
   ⟨"sodium_100g", "sodium", "g"⟩]
  ++ (if include_salt then [⟨"salt_100g", "salt", "g"⟩] else [])

/-- The `by_field` lookup built from the minimal specs (ingest_tsv.py
line 336); total because it is only applied to the specs' own fields. -/
def by_field_lookup (specs : List NutrientSpec) (f : String) : String × String :=
  match specs.find? (fun s => s.source_field = f) with
  | some s => (s.nutrient_key, s.unit)
  | none => ("", "")

/-- Embedding of `normalize_nutrient_key_from_field` (nutrients.py lines
32-37). -/
def normalize_nutrient_key_from_field (source_field : String) : String :=
  let key := if source_field.endsWith "_100g" then source_field.dropRight 5
    else source_field
  (key.replace "-" "_").toLower

/-- Embedding of `unit_for_source_field` (nutrients.py lines 40-45). -/
def unit_for_source_field (source_field : String) : String :=
  if source_field = "energy-kj_100g" ∨ source_field = "energy_100g" then "kJ"
  else if source_field = "energy-kcal_100g" then "kcal"
  else ""

/-- Embedding of the `product_nutrient_cols` alias table (ingest_tsv.py
lines 342-354). -/
def product_nutrient_cols (f : String) : Option String :=
  if f = "energy-kcal_100g" then some "energy_kcal_100g"
  else if f = "energy-kj_100g" then some "energy_kj_100g"
  else if f = "energy_100g" then some "energy_kj_100g"
  else if f = "fat_100g" then some "fat_100g"
  else if f = "saturated-fat_100g" then some "saturated_fat_100g"
  else if f = "carbohydrates_100g" then some "carbohydrates_100g"
  else if f = "sugars_100g" then some "sugars_100g"
  else if f = "fiber_100g" then some "fiber_100g"
  else if f = "proteins_100g" then some "protein_100g"
  else if f = "sodium_100g" then some "sodium_100g"
  else if f = "salt_100g" then some "salt_100g"
  else none

/-- One nutrient observation row for the `nutrient_100g` COPY buffer. -/
structure NutrientObs where
  code_norm : String
  nutrient_key : String
  value : String
  unit : String
  source_field : String
deriving DecidableEq, Repr

/-- State of the per-row transform loop: the `base` product dict and the
nutrient observations emitted so far. -/
structure TransformState where
  base : String → String
  obs : List NutrientObs
  nutrient_count : Nat

/-- The initial `base` dict of a row (ingest_tsv.py lines 499-518): the
named attribute cells stripped, `last_modified_t` validated as an
integer, and all nutrient columns empty. -/
def base_init (row : String → String) (code_norm raw_code : String) :
    String → String :=
  fun c =>
    if c = "code_norm" then code_norm
    else if c = "code_raw" then raw_code
    else if c = "product_name" then pyStrip (row "product_name")
    else if c = "brands" then pyStrip (row "brands")
    else if c = "categories" then pyStrip (row "categories")
    else if c = "quantity" then pyStrip (row "quantity")
    else if c = "serving_size" then pyStrip (row "serving_size")
    else if c = "last_modified_t" then int_or_empty (row "last_modified_t")
    else ""

/-- Embedding of one iteration of the nutrient-field loop (ingest_tsv.py
lines 523-562): skip empty and non-numeric cells; look up the
nutrient key and unit; write the canonical product column unless a
kJ-specific energy value already occupies it; and emit the observation
unless the minimal-mode energy special case suppresses it. -/
def transform_field (minimal : Bool) (by_field : String → String × String)
    (row : String → String) (code_norm : String) (st : TransformState)
    (source_field : String) : TransformState :=
  let val := row source_field
  if val = "" then st
  else
    let cleaned := float_or_empty val
    if cleaned = "" then st
    else
      let nk_unit := if minimal then by_field source_field
        else (normalize_nutrient_key_from_field source_field,
          unit_for_source_field source_field)
      let st1 :=
        match product_nutrient_cols source_field with
        | none => st
        | some col =>
          if col = "energy_kj_100g" ∧ source_field = "energy_100g"
              ∧ st.base col ≠ "" then st
          else { st with base := fun c => if c = col then cleaned else st.base c }
      if minimal ∧ source_field = "energy_100g" ∧ row "energy-kj_100g" ≠ "" then st1
      else
        { st1 with
          obs := st1.obs
            ++ [⟨code_norm, nk_unit.1, cleaned, nk_unit.2, source_field⟩],
          nutrient_count := st1.nutrient_count + 1 }

/-- The whole minimal-mode nutrient loop of one row. -/
def transform_row_minimal (include_salt : Bool) (row : String → String)
    (code_norm raw_code : String) : TransformState :=
  let specs := minimal_nutrients include_salt
  let fields := specs.map (fun s => s.source_field)
  fields.foldl
    (transform_field true (by_field_lookup specs) row code_norm)
    ⟨base_init row code_norm raw_code, [], 0⟩

theorem transform_field_filter_ne (by_field : String → String × String)
    (row : String → String) (code_norm : String) (st : TransformState)
    (f : String) (hne : (by_field f).1 ≠ "energy_kj") :
    (transform_field true by_field row code_norm st f).obs.filter
        (fun o => o.nutrient_key = "energy_kj")
      = st.obs.filter (fun o => o.nutrient_key = "energy_kj") := by
  unfold transform_field
  by_cases h0 : row f = ""
  · rw [if_pos h0]
  · rw [if_neg h0]
    by_cases h1 : float_or_empty (row f) = ""
    · rw [if_pos h1]
    · rw [if_neg h1]
      have hobs1 : (match product_nutrient_cols f with
          | none => st
          | some col =>
            if col = "energy_kj_100g" ∧ f = "energy_100g" ∧ st.base col ≠ "" then st
            else { st with
              base := fun c => if c = col then float_or_empty (row f) else st.base c }).obs
          = st.obs := by
        split
        · rfl
        · next col _ =>
          by_cases hc : col = "energy_kj_100g" ∧ f = "energy_100g" ∧ st.base col ≠ ""
          · rw [if_pos hc]
          · rw [if_neg hc]
      by_cases h2 : (true : Bool) ∧ f = "energy_100g" ∧ row "energy-kj_100g" ≠ ""
      · rw [if_pos h2]
        simp only [hobs1]
      · rw [if_neg h2]
        simp only [hobs1, List.filter_append]
        simp [hne]

theorem transform_fold_filter_ne (by_field : String → String × String)
    (row : String → String) (code_norm : String) :
    ∀ (fields : List String) (st : TransformState),
      (∀ f ∈ fields, (by_field f).1 ≠ "energy_kj") →
      ((fields.foldl (transform_field true by_field row code_norm) st).obs).filter
          (fun o => o.nutrient_key = "energy_kj")
        = st.obs.filter (fun o => o.nutrient_key = "energy_kj") := by
  intro fields
  induction fields with
  | nil => intro st _; rfl
  | cons f rest ih =>
    intro st hne
    rw [List.foldl_cons, ih _ (fun g hg => hne g (List.mem_cons_of_mem f hg)),
      transform_field_filter_ne by_field row code_norm st f
        (hne f (List.mem_cons_self f rest))]

/-- C7: in minimal nutrients mode, a row carrying both
`energy-kj_100g=500` and `energy_100g=2000` (both numerically valid)
emits exactly one `energy_kj` nutrient observation, with value `500`
from the kJ-specific source field — the generic energy field is
suppressed. -/
theorem minimal_energy_kj_wins (include_salt : Bool) (row : String → String)
    (code_norm raw_code : String)
    (h1 : row "energy-kj_100g" = "500") (h2 : row "energy_100g" = "2000") :
    (transform_row_minimal include_salt row code_norm raw_code).obs.filter
        (fun o => o.nutrient_key = "energy_kj")
      = [⟨code_norm, "energy_kj", "500", "kJ", "energy-kj_100g"⟩] := by
  have hen : ∀ (bf : String → String × String) (st : TransformState),
      (transform_field true bf row code_norm st "energy_100g").obs = st.obs := by
    intro bf st
    have hcl : float_or_empty "2000" = "2000" := by decide
    have hpc : product_nutrient_cols "energy_100g" = some "energy_kj_100g" := rfl
    simp [transform_field, h1, h2, hcl, hpc]
    split
    · rfl
    · rfl
  have hkjstep : ∀ (bf : String → String × String) (st : TransformState),
      bf "energy-kj_100g" = ("energy_kj", "kJ") →
      (transform_field true bf row code_norm st "energy-kj_100g").obs
        = st.obs ++ [⟨code_norm, "energy_kj", "500", "kJ", "energy-kj_100g"⟩] := by
    intro bf st hkj
    have hcl : float_or_empty "500" = "500" := by decide
    have hpc : product_nutrient_cols "energy-kj_100g" = some "energy_kj_100g" := rfl
    simp [transform_field, h1, hkj, hcl, hpc]
  cases include_salt with
  | false =>
    have hfields : (minimal_nutrients false).map (fun s => s.source_field)
        = ["energy-kcal_100g", "energy-kj_100g", "energy_100g", "fat_100g",
           "saturated-fat_100g", "carbohydrates_100g", "sugars_100g", "fiber_100g",
           "proteins_100g", "sodium_100g"] := rfl
    simp only [transform_row_minimal, hfields]
    rw [List.foldl_cons, List.foldl_cons, List.foldl_cons,
      transform_fold_filter_ne (by_field_lookup (minimal_nutrients false)) row code_norm
        ["fat_100g", "saturated-fat_100g", "carbohydrates_100g", "sugars_100g",
         "fiber_100g", "proteins_100g", "sodium_100g"] _ (by decide),
      hen, hkjstep (by_field_lookup (minimal_nutrients false)) _ (by decide),
      List.filter_append,
      transform_field_filter_ne (by_field_lookup (minimal_nutrients false)) row code_norm
        ⟨base_init row code_norm raw_code, [], 0⟩ "energy-kcal_100g" (by decide)]
    simp
  | true =>
    have hfields : (minimal_nutrients true).map (fun s => s.source_field)
        = ["energy-kcal_100g", "energy-kj_100g", "energy_100g", "fat_100g",
           "saturated-fat_100g", "carbohydrates_100g", "sugars_100g", "fiber_100g",
           "proteins_100g", "sodium_100g", "salt_100g"] := rfl
    simp only [transform_row_minimal, hfields]
    rw [List.foldl_cons, List.foldl_cons, List.foldl_cons,
      transform_fold_filter_ne (by_field_lookup (minimal_nutrients true)) row code_norm
        ["fat_100g", "saturated-fat_100g", "carbohydrates_100g", "sugars_100g",
         "fiber_100g", "proteins_100g", "sodium_100g", "salt_100g"] _ (by decide),
      hen, hkjstep (by_field_lookup (minimal_nutrients true)) _ (by decide),
      List.filter_append,
      transform_field_filter_ne (by_field_lookup (minimal_nutrients true)) row code_norm
        ⟨base_init row code_norm raw_code, [], 0⟩ "energy-kcal_100g" (by decide)]
    simp

/-- C7 (witness): the scenario at a concrete row function. -/
theorem minimal_energy_kj_wins_witness :
    (transform_row_minimal false
        (fun f => if f = "energy-kj_100g" then "500"
          else if f = "energy_100g" then "2000" else "")
        "123" "123").obs.filter (fun o => o.nutrient_key = "energy_kj")
      = [⟨"123", "energy_kj", "500", "kJ", "energy-kj_100g"⟩] :=
  minimal_energy_kj_wins false
    (fun f => if f = "energy-kj_100g" then "500"
      else if f = "energy_100g" then "2000" else "")
    "123" "123" (by decide) (by decide)
